import Mathlib

/-!
Verification development for the cfc repository (a lightweight cron daemon
for containers).  The Rust sources are shallowly embedded: pure fragments
become Lean functions, Rust HashMap values become association lists
manipulated only through the helpers below, fallible code returns
Except, and a possible panic (an `unwrap` on `None`/`Err`, a failed
`assert!`) is modelled by an outer `Option` whose `none` value means
"the code panics here".  External library calls (the croner cron parser,
the json parser, the Docker API) are abstracted as function parameters,
so every theorem quantifies over their behaviour.
-/

namespace Cfc

/-! ### Association-list model of Rust HashMap

Rust `HashMap<String, V>` is modelled by `List (String × V)` with unique
keys maintained by construction; `getA`, `putA`, `delA` model `get`,
`insert` (replace-or-add) and `remove`.  Label/attribute iteration order,
which for a Rust HashMap is arbitrary, is the list order, and theorems
quantify over it. -/

def getA {α : Type} : List (String × α) → String → Option α
  | [], _ => none
  | (k', v) :: t, k => if k' = k then some v else getA t k

def putA {α : Type} : List (String × α) → String → α → List (String × α)
  | [], k, v => [(k, v)]
  | (k', v') :: t, k, v => if k' = k then (k, v) :: t else (k', v') :: putA t k v

def delA {α : Type} : List (String × α) → String → List (String × α)
  | [], _ => []
  | (k', v') :: t, k => if k' = k then delA t k else (k', v') :: delA t k

/-! ### Character-level string utilities

`String.trim` / `str::split` / the `regex` crate do not reduce well in the
kernel, so the embedding works on `List Char` for the string analysis the
source performs, converting with `String.toList` / `String.mk` at the
boundaries. -/

/-- Whitespace in the sense of `str::trim` and the regex class `\s`
(restricted to the ASCII whitespace actually exercised by the program). -/
def wsC (c : Char) : Bool := c = ' ' ∨ c = '\t' ∨ c = '\n' ∨ c = '\r'

/-- Model of `str::trim`: drop whitespace from both ends. -/
def trimL (l : List Char) : List Char :=
  ((l.dropWhile wsC).reverse.dropWhile wsC).reverse

/-- Split a character list at every occurrence of the separator, keeping
empty segments, as Rust's `str::split` does for a one-character pattern. -/
def splitCh (sep : Char) : List Char → List (List Char)
  | [] => [[]]
  | c :: t =>
    if c = sep then [] :: splitCh sep t
    else
      match splitCh sep t with
      | [] => [[c]]
      | s :: ss => (c :: s) :: ss

/-- Consume an expected leading character sequence, returning the rest. -/
def dropLead : List Char → List Char → Option (List Char)
  | [], l => some l
  | _ :: _, [] => none
  | c :: p, x :: xs => if c = x then dropLead p xs else none

/-! ### Decimal integers

`src/job/mod.rs` and `src/job/common.rs` parse the `@every` interval with
`str::parse::<i32>()` and print it back with `format!`.  `digitsToNat`
models parsing a digit string (the regex guarantees `[0-9]+`); the parse
fails — and the source's `.unwrap()` panics — exactly when the value
exceeds `i32::MAX`.  `natRepr` models decimal formatting, with the usual
fuel-based recursion so that it reduces in the kernel. -/

def digitsToNat (ds : List Char) : Nat :=
  ds.foldl (fun a c => a * 10 + (c.toNat - 48)) 0

def i32Max : Nat := 2147483647

def natReprAux : Nat → Nat → List Char → List Char
  | 0, _, acc => acc
  | fuel + 1, n, acc =>
    let d := Char.ofNat (48 + n % 10)
    if n / 10 = 0 then d :: acc else natReprAux fuel (n / 10) (d :: acc)

def natRepr (n : Nat) : List Char := natReprAux (n + 1) n []

/-! ### Schedule parsing (`schedule_to_cron`)

From `src/src/job/common.rs` lines 45-64 (the copy in `src/src/job/mod.rs`
lines 22-41 is identical).  The croner library call
`Cron::new(&sched).with_seconds_optional().parse()` is abstracted as the
parameter `cronParse : String → Except String C` over an arbitrary type
`C` of parsed cron predicates.  The result is `none` when the code
panics: the only panic inside `schedule_to_cron` itself is the
`parse().unwrap()` on the captured interval, which overflows `i32`. -/

inductive TimeUnit where
  | s : TimeUnit
  | m : TimeUnit
  | h : TimeUnit
deriving DecidableEq

/-- Model of matching the anchored regex
`@every\s+(?<interval>[0-9]+)(?<unit>s|m|h)$` (with `^` implicit in how it
is used): the literal `@every`, one or more whitespace characters, one or
more digits, one time-unit letter, end of string. -/
def everyMatch (l : List Char) : Option (List Char × TimeUnit) :=
  match dropLead "@every".toList l with
  | none => none
  | some rest =>
    let ws := rest.takeWhile wsC
    let rest2 := rest.dropWhile wsC
    if ws = [] then none
    else
      let ds := rest2.takeWhile Char.isDigit
      let rest3 := rest2.dropWhile Char.isDigit
      if ds = [] then none
      else
        match rest3 with
        | ['s'] => some (ds, TimeUnit.s)
        | ['m'] => some (ds, TimeUnit.m)
        | ['h'] => some (ds, TimeUnit.h)
        | _ => none

/-- The three 6-field cron expansions built by `format!` in the `match`
on the captured unit. -/
def expandEvery : TimeUnit → Nat → List Char
  | TimeUnit.s, n => "*/".toList ++ natRepr n ++ " * * * * *".toList
  | TimeUnit.m, n => "0 */".toList ++ natRepr n ++ " * * * *".toList
  | TimeUnit.h, n => "0 0 */".toList ++ natRepr n ++ " * * *".toList

/-- Embedding of `schedule_to_cron`.  Trim, try the `@every` shorthand
(replacing the string by the 6-field expansion of the parsed interval),
then hand the string to the cron library.  `none` models the panic of
`c.name("interval").unwrap().as_str().parse::<i32>().unwrap()` when the
digit run exceeds `i32::MAX`. -/
def schedule_to_cron {C : Type} (cronParse : String → Except String C)
    (sched : String) : Option (Except String C) :=
  match everyMatch (trimL sched.toList) with
  | none => some (cronParse (String.mk (trimL sched.toList)))
  | some (ds, u) =>
    if digitsToNat ds ≤ i32Max then
      some (cronParse (String.mk (expandEvery u (digitsToNat ds))))
    else none

/-! ### Job data model

From `src/src/job/{exec,run,local,servicerun}.rs`.  The croner `Cron`
type is the type parameter `C`.  `AttrMap` is the per-job attribute map
`HashMap<String, Vec<String>>`. -/

abbrev AttrMap := List (String × List String)

structure ExecJobInfo (C : Type) where
  name : String
  schedule : C
  command : String
  container : String
  user : Option String
  tty : Bool
  environment : List String

structure RunJobInfo (C : Type) where
  name : String
  schedule : C
  command : String
  image : Option String
  user : Option String
  network : Option (List String)
  hostname : Option String
  delete : Bool
  container : Option String
  tty : Bool
  volume : List String
  environment : List String

structure LocalJobInfo (C : Type) where
  name : String
  schedule : C
  command : String
  dir : Option String
  environment : List String

structure ServiceRunJobInfo (C : Type) where
  name : String
  schedule : C
  command : String
  image : Option String
  user : Option String
  network : Option (List String)
  delete : Bool
  container : Option String
  tty : Bool

inductive JobInfo (C : Type) where
  | execJob : ExecJobInfo C → JobInfo C
  | runJob : RunJobInfo C → JobInfo C
  | localJob : LocalJobInfo C → JobInfo C
  | serviceRunJob : ServiceRunJobInfo C → JobInfo C

/-! ### Field extraction helpers used by `JobInfo::try_from`
(`src/src/job/mod.rs` lines 112-198)

That decoder does not use the `take_one!` / `require_one!` macros; it
reads each attribute with `parameters.remove(k)` followed by
`Vec::pop().unwrap()` combinators.  `Vec::pop` takes the LAST element;
`unwrap` on an empty vector panics (`none`). -/

/-- `parameters.remove(k).map_or_else(|| "".to_string(), |mut n| n.pop().unwrap())` —
the `name` attribute: absent means the empty string, present means the
last element (panic on an empty vector). -/
def namePopField : Option (List String) → Option String
  | none => some ""
  | some l => l.getLast?

/-- `parameters.remove(k).map(|mut c| c.pop().unwrap())` kept optional —
used for `user`, `image`, `hostname`, `dir`. -/
def optPopField : Option (List String) → Option (Option String)
  | none => some none
  | some l => (l.getLast?).map some

/-- `parameters.remove(k).map(|mut c| c.pop().unwrap()).unwrap()` — used
for the `container` attribute of `job-exec`: absent panics. -/
def reqPopField : Option (List String) → Option String
  | none => none
  | some l => l.getLast?

/-- Rust `str::parse::<bool>`: exactly the lowercase literals. -/
def parseBoolRust (s : String) : Option Bool :=
  if s = "true" then some true else if s = "false" then some false else none

/-- `parameters.remove(k).map_or(d, |mut t| t.pop().unwrap().parse().unwrap())` —
the boolean attributes `tty` and `delete`; a missing key yields the
default, a bad literal or empty vector panics. -/
def boolPopField (d : Bool) : Option (List String) → Option Bool
  | none => some d
  | some l => l.getLast?.bind parseBoolRust

/-- `schedule_to_cron(&schedule.as_str()).unwrap()` — the `.unwrap()`
turns a cron parse error into a panic (`none`). -/
def scheduleUnwrap {C : Type} (cronParse : String → Except String C)
    (sched : String) : Option C :=
  match schedule_to_cron cronParse sched with
  | none => none
  | some (Except.error _) => none
  | some (Except.ok c) => some c

/-! ### `JobInfo::try_from` (`src/src/job/mod.rs` lines 112-198)

This is the decoder actually used by the loaders (via `map_to_job` in
`src/src/loader/mod.rs`).  Outer `Option` = panic, inner `Except` = the
`anyhow::Error` return. -/

def tryFromJobInfo {C : Type} (cronParse : String → Except String C)
    (m0 : AttrMap) : Option (Except String (JobInfo C)) :=
  let kindO := getA m0 "kind"
  let m1 := delA m0 "kind"
  let commandO := getA m1 "command"
  let m2 := delA m1 "command"
  let scheduleO := getA m2 "schedule"
  let m := delA m2 "schedule"
  match kindO with
  | none => some (Except.error "The job has no job type")
  | some kindL =>
    -- several kinds set: debug log only, the last one is used
    match commandO with
    | none => some (Except.error "The job has no command")
    | some commandL =>
      match scheduleO with
      | none => some (Except.error "The job has no schedule")
      | some scheduleL =>
        match scheduleL.getLast? with
        | none => none      -- schedule.unwrap().pop().unwrap() on empty vec
        | some sched =>
          match kindL.getLast? with
          | none => none    -- kind.unwrap().pop().unwrap() on empty vec
          | some kind =>
            if kind = "job-exec" then
              (do
                let name ← namePopField (getA m "name")
                let schedV ← scheduleUnwrap cronParse sched
                let cmd ← commandL.getLast?
                let container ← reqPopField (getA m "container")
                let user ← optPopField (getA m "user")
                let tty ← boolPopField false (getA m "tty")
                let env := (getA m "environment").getD []
                pure (Except.ok (JobInfo.execJob
                  ⟨name, schedV, cmd, container, user, tty, env⟩)))
            else if kind = "job-run" then
              (do
                let name ← namePopField (getA m "name")
                let schedV ← scheduleUnwrap cronParse sched
                let cmd ← commandL.getLast?
                let image ← optPopField (getA m "image")
                let user ← optPopField (getA m "user")
                let network := getA m "network"
                let hostname ← optPopField (getA m "hostname")
                let del ← boolPopField true (getA m "delete")
                let container ← optPopField (getA m "container")
                let tty ← boolPopField false (getA m "tty")
                let volume := (getA m "volume").getD []
                let env := (getA m "environment").getD []
                pure (if image = none ∧ container = none then
                  Except.error ("The job " ++ name ++
                    " has neither an image nor a container parameter. At least one of thse must be set.")
                else Except.ok (JobInfo.runJob
                  ⟨name, schedV, cmd, image, user, network, hostname, del,
                   container, tty, volume, env⟩)))
            else if kind = "job-local" then
              (do
                let name ← namePopField (getA m "name")
                let schedV ← scheduleUnwrap cronParse sched
                let cmd ← commandL.getLast?
                let dir ← optPopField (getA m "dir")
                let env := (getA m "environment").getD []
                pure (Except.ok (JobInfo.localJob ⟨name, schedV, cmd, dir, env⟩)))
            else if kind = "job-service-run" then
              (do
                let name ← namePopField (getA m "name")
                let schedV ← scheduleUnwrap cronParse sched
                let cmd ← commandL.getLast?
                let image ← optPopField (getA m "image")
                let user ← optPopField (getA m "user")
                let network := getA m "network"
                let del ← boolPopField true (getA m "delete")
                let container ← optPopField (getA m "container")
                let tty ← boolPopField false (getA m "tty")
                pure (Except.ok (JobInfo.serviceRunJob
                  ⟨name, schedV, cmd, image, user, network, del, container, tty⟩)))
            else
              some (Except.error ("Unsupported job type " ++ kind))

/-! ### The `take_one!` / `require_one!` macros (`src/src/job/common.rs`
lines 14-42) and the variant decoder `LocalJobInfo::try_from`
(`src/src/job/local.rs` lines 21-37) -/

/-- `take_one!`: an absent key is `None`; a present key must hold exactly
one value, otherwise an error. -/
def take_one (m : AttrMap) (k : String) : Except String (Option String) :=
  match getA m k with
  | none => Except.ok none
  | some [x] => Except.ok (some x)
  | some _ => Except.error ("The job key " ++ k ++ " has too may values")

/-- `require_one!`: the key must be present with exactly one value. -/
def require_one (m : AttrMap) (k : String) : Except String String :=
  match getA m k with
  | none => Except.error ("The job key " ++ k ++ " is required but not set")
  | some [x] => Except.ok x
  | some _ => Except.error ("The job key " ++ k ++ " has too many values")

/-- Embedding of `LocalJobInfo::try_from`: the `require_one!` error on
`name` is swallowed by `unwrap_or_else` into the empty string; the
errors on `schedule`, `command` and `dir` propagate with `?`.  The outer
`Option` carries the potential interval-overflow panic inside
`schedule_to_cron`. -/
def tryFromLocalJobInfo {C : Type} (cronParse : String → Except String C)
    (m : AttrMap) : Option (Except String (LocalJobInfo C)) :=
  let name := match require_one m "name" with
    | Except.ok v => v
    | Except.error _ => ""
  match require_one m "schedule" with
  | Except.error e => some (Except.error e)
  | Except.ok s =>
    match schedule_to_cron cronParse s with
    | none => none
    | some (Except.error e) => some (Except.error e)
    | some (Except.ok c) =>
      match require_one m "command" with
      | Except.error e => some (Except.error e)
      | Except.ok cmd =>
        match take_one m "dir" with
        | Except.error e => some (Except.error e)
        | Except.ok dir =>
          some (Except.ok
            { name := name, schedule := c, command := cmd, dir := dir,
              environment := (getA m "environment").getD [] })

/-! ### Local job execution (`src/src/job/local.rs` lines 41-81) -/

/-- The environment loop of `LocalJobInfo::exec`: each entry is split on
every `'='`; `env_info.next()` (the first segment) is the variable name,
and the remaining segments are re-joined with `'.'` to form the value. -/
def splitEq : List Char → List (List Char) := splitCh '='

/-- `collect::<Vec<_>>().join(".")`. -/
def joinDots : List (List Char) → List Char
  | [] => []
  | [x] => x
  | x :: y :: t => x ++ '.' :: joinDots (y :: t)

/-- The (name, value) pair passed to `command.env(key, value)` for one
environment entry.  `split` always yields a first segment, so the
`else` error branch of the source is unreachable; the `[] => _`
fallback below mirrors that dead branch. -/
def envAssignment (e : List Char) : List Char × List Char :=
  match splitEq e with
  | [] => ([], [])
  | k :: rest => (k, joinDots rest)

/-- `std::process::Output` as far as `LocalJobInfo::exec` inspects it:
`status.code()` is `None` when the child was terminated by a signal. -/
structure ProcessOutput where
  statusCode : Option Int
  stdout : List Nat
  stderr : List Nat

structure ExecutionReport where
  retval : Int
  stdout : Option String
  stderr : Option String
deriving DecidableEq

inductive ExecInfo where
  | report : ExecutionReport → ExecInfo
  | schedule : ExecInfo
deriving DecidableEq

/-- The tail of `LocalJobInfo::exec` after the child has been spawned:
`command.output().await.and_then(|o| ... Ok(ExecInfo::Report(report)))`.
A spawn error passes through; otherwise the report's `retval` is
`o.status.code().unwrap().into()` — a panic (`none`) when the child
exited without an exit code.  The captured stdout/stderr bytes are only
logged, never stored in the report. -/
def localExecOutcome (res : Except String ProcessOutput) :
    Option (Except String ExecInfo) :=
  match res with
  | Except.error e => some (Except.error e)
  | Except.ok o =>
    match o.statusCode with
    | none => none
    | some c => some (Except.ok (ExecInfo.report
        { retval := c, stdout := none, stderr := none }))

/-! ### The json crate value model (`json::JsonValue`)

`get_tagged_targets` pattern-matches the parsed value against
`JsonValue::Array` and its elements against `JsonValue::String`; every
other shape falls back.  The enum is modelled with the crate's variants
that the match distinguishes: `str` for `JsonValue::String`, `short` for
`JsonValue::Short` (the crate's stack-allocated short-string variant,
which the source's `String` pattern does NOT match), `arr` for arrays,
and `other` for `Null`/`Number`/`Boolean`/`Object`.  The parser itself,
`json::parse`, is abstracted as `String → Option JsonValue` (`none` =
parse error). -/

inductive JsonValue where
  | str : String → JsonValue
  | short : String → JsonValue
  | arr : List JsonValue → JsonValue
  | other : JsonValue

/-- The element loop of the array branch: push every
`JsonValue::String`, fail on the first element of any other variant. -/
def allStrings : List JsonValue → Option (List String)
  | [] => some []
  | JsonValue.str s :: t => (allStrings t).map (fun r => s :: r)
  | _ :: _ => none

/-- The closure passed to `map_or_else` on the `Ok` side: accept only an
array whose elements are all `JsonValue::String`. -/
def extractStrings : JsonValue → Option (List String)
  | JsonValue.arr items => allStrings items
  | _ => none

/-- The full `volume|network|environment` branch of
`get_tagged_targets`: `json::parse(value)` mapped through
`extractStrings`, with `unwrap_or_else(|_| vec![value.to_owned()])`
degrading every failure to a singleton of the raw label value. -/
def labelMultiValue (jsonParse : String → Option JsonValue)
    (value : String) : List String :=
  match jsonParse value with
  | none => [value]
  | some j => (extractStrings j).getD [value]

/-- The `match job_parameter.as_str()` storing step. -/
def storedValue (jsonParse : String → Option JsonValue)
    (param value : String) : List String :=
  if param = "volume" ∨ param = "network" ∨ param = "environment" then
    labelMultiValue jsonParse value
  else [value]

/-! ### The label pipeline (`src/src/loader/docker.rs`)

A container is its id together with its labels; `bollard` reports both
as `Option`s, but the source unwraps the id unconditionally and only
iterates non-empty label sets, so the embedding carries them directly
(iterating an empty list is the same as the source's `continue`).  The
Docker `list_containers` call per prefix is abstracted as
`query : String → List Container`; its error path aborts the load and is
not modelled (no claim concerns it). -/

structure Container where
  id : String
  labels : List (String × String)

abbrev Attrs := List (String × List String)
abbrev JobMap := List (String × Attrs)

/-- The initial attribute map seeded on first sight of a job key:
`{kind, name}`, plus `container` for kinds other than `job-local`. -/
def seedAttrs (cid kind name : String) : Attrs :=
  if kind ≠ "job-local" then
    [("kind", [kind]), ("name", [name]), ("container", [cid])]
  else
    [("kind", [kind]), ("name", [name])]

/-- The guard of the `container` special case:
`evt_info.get("container").map_or(true, |v| v.len() == 1 && v.contains(value))`. -/
def containerDrop (evt : Attrs) (value : String) : Bool :=
  match getA evt "container" with
  | none => true
  | some v => v.length == 1 && v.contains value

/-- The job key `format!["{}_{}_{}", container_id, job_kind, job_name]`. -/
def jobKeyOf (cid kind name : String) : String :=
  cid ++ "_" ++ kind ++ "_" ++ name

/-- The first-sight seeding: `if !job_map.contains_key(&job_key) { insert }`. -/
def seedIfAbsent (m : JobMap) (cid kind name : String) : JobMap :=
  if (getA m (jobKeyOf cid kind name)).isSome then m
  else putA m (jobKeyOf cid kind name) (seedAttrs cid kind name)

/-- The duplicate-parameter handling and the final `match job_parameter`
insertion of `get_tagged_targets` (lines 82-117), for the already-fetched
entry `evt` of `m1` at `jobKey`. -/
def processParam (jsonParse : String → Option JsonValue) (m1 : JobMap)
    (jobKey : String) (evt : Attrs) (param value : String) :
    Option (Except String JobMap) :=
  match getA evt param with
  | some pv =>
    if param = "container" ∧ containerDrop evt value = true then
      some (Except.ok (putA m1 jobKey
        (putA (delA evt "container") param (storedValue jsonParse param value))))
    else if value ∈ pv then some (Except.ok m1)
    else some (Except.error
      "Parameter set more than once has different values in its occurences")
  | none =>
    some (Except.ok (putA m1 jobKey
      (putA evt param (storedValue jsonParse param value))))

/-- The recorded-kind agreement check
`if !evt_info.get("kind").unwrap().contains(&job_kind)`: a disagreeing
kind is the conflicting-cron-types error, whose message formatting
itself panics via `first().unwrap()` on an empty kind list. -/
def checkKindBranch (jsonParse : String → Option JsonValue) (m1 : JobMap)
    (jobKey : String) (evt : Attrs) (param value kind : String)
    (ks : List String) : Option (Except String JobMap) :=
  if kind ∈ ks then processParam jsonParse m1 jobKey evt param value
  else
    match ks with
    | [] => none
    | _ :: _ => some (Except.error "Conflicting cron types on label")

/-- The per-label body after seeding: fetch the entry
(`job_map.get_mut(&job_key).unwrap()`, a panic when absent), check the
recorded kind (`evt_info.get("kind").unwrap()`, a panic when absent),
then handle the parameter. -/
def processEvt (jsonParse : String → Option JsonValue) (m1 : JobMap)
    (jobKey kind param value : String) : Option (Except String JobMap) :=
  match getA m1 jobKey with
  | none => none
  | some evt =>
    match getA evt "kind" with
    | none => none
    | some ks => checkKindBranch jsonParse m1 jobKey evt param value kind ks

/-- Processing of one significant label: the safety policy on
`job-local`, then seeding and parameter handling. -/
def processSig (allowUnsafe : Bool) (jsonParse : String → Option JsonValue)
    (cid : String) (m : JobMap) (kind name param value : String) :
    Option (Except String JobMap) :=
  if allowUnsafe = false ∧ kind = "job-local" then some (Except.ok m)
  else processEvt jsonParse (seedIfAbsent m cid kind name)
    (jobKeyOf cid kind name) kind param value

/-- Processing of one label `(key, value)` of one container, from the
inner `for (key, value) in container.labels` loop of
`get_tagged_targets` (lines 40-117): split the key on dots, require the
first segment to be a configured prefix and exactly three more segments
`(kind, job-name, parameter)`, then process the significant label.
`none` models a panic. -/
def processLabel (prefs : List String) (allowUnsafe : Bool)
    (jsonParse : String → Option JsonValue) (cid : String)
    (m : JobMap) (kv : String × String) : Option (Except String JobMap) :=
  match splitCh '.' kv.1.toList with
  | [] => some (Except.ok m)   -- unreachable: str::split always yields a first segment
  | p :: rest =>
    if (prefs.contains (String.mk p)) = false then some (Except.ok m)
    else
      match rest with
      | [kindC, nameC, paramC] =>
        processSig allowUnsafe jsonParse cid m (String.mk kindC)
          (String.mk nameC) (String.mk paramC) kv.2
      | _ => some (Except.ok m)

/-- Fold `processLabel` over a container's labels, stopping at the first
error or panic. -/
def processLabels (prefs : List String) (allowUnsafe : Bool)
    (jsonParse : String → Option JsonValue) (cid : String)
    (m : JobMap) : List (String × String) → Option (Except String JobMap)
  | [] => some (Except.ok m)
  | kv :: rest =>
    match processLabel prefs allowUnsafe jsonParse cid m kv with
    | none => none
    | some (Except.error e) => some (Except.error e)
    | some (Except.ok m') => processLabels prefs allowUnsafe jsonParse cid m' rest

/-- Process one container: skip it if its id was already seen under an
earlier prefix, otherwise record the id and run the label loop. -/
def processContainer (prefs : List String) (allowUnsafe : Bool)
    (jsonParse : String → Option JsonValue)
    (st : List String × JobMap) (c : Container) :
    Option (Except String (List String × JobMap)) :=
  if st.1.contains c.id then some (Except.ok st)
  else
    match processLabels prefs allowUnsafe jsonParse c.id st.2 c.labels with
    | none => none
    | some (Except.error e) => some (Except.error e)
    | some (Except.ok m') => some (Except.ok (c.id :: st.1, m'))

def processContainers (prefs : List String) (allowUnsafe : Bool)
    (jsonParse : String → Option JsonValue)
    (st : List String × JobMap) : List Container →
    Option (Except String (List String × JobMap))
  | [] => some (Except.ok st)
  | c :: cs =>
    match processContainer prefs allowUnsafe jsonParse st c with
    | none => none
    | some (Except.error e) => some (Except.error e)
    | some (Except.ok st') => processContainers prefs allowUnsafe jsonParse st' cs

def processPrefixes (allPrefs : List String) (allowUnsafe : Bool)
    (jsonParse : String → Option JsonValue) (query : String → List Container)
    (st : List String × JobMap) : List String →
    Option (Except String (List String × JobMap))
  | [] => some (Except.ok st)
  | p :: ps =>
    match processContainers allPrefs allowUnsafe jsonParse st (query p) with
    | none => none
    | some (Except.error e) => some (Except.error e)
    | some (Except.ok st') => processPrefixes allPrefs allowUnsafe jsonParse query st' ps

/-- Embedding of `get_tagged_targets`: iterate the configured prefixes,
querying the runtime for containers labelled `{prefix}.enabled=true`
(abstracted by `query`), and build the normalized job map. -/
def getTaggedTargets (prefs : List String) (allowUnsafe : Bool)
    (jsonParse : String → Option JsonValue)
    (query : String → List Container) : Option (Except String JobMap) :=
  match processPrefixes prefs allowUnsafe jsonParse query ([], []) prefs with
  | none => none
  | some (Except.error e) => some (Except.error e)
  | some (Except.ok st) => some (Except.ok st.2)

/-! ### The INI loader (`src/src/loader/ini.rs`)

`parse_ini` is driven by the item stream of the external `ini_core`
parser: `Section`, `SectionEnd`, `Property(key, Option value)` (`None`
when the line has no `=`; an empty value after `=` is `Some ""`),
`Comment`, `Blank`, `Error`.  The embedding consumes that item stream
directly, so the theorems quantify over every stream the lexer could
produce. -/

inductive IniItem where
  | err : String → IniItem
  | sec : String → IniItem
  | secEnd : IniItem
  | prop : String → Option String → IniItem
  | comment : IniItem
  | blank : IniItem

/-- Anchored matching of the section-header regex
`^(?<kind>[^\s]+)\s*"(?<name>[^"]+)"$` with the regex crate's greedy
capture for `kind`: try the longest whitespace-free head first
(`tryKindLen` counts down), then a whitespace run, an opening quote, a
non-empty quote-free name, a closing quote, end of input. -/
def headerTail (rest : List Char) : Option (List Char) :=
  let rest2 := rest.dropWhile wsC
  match rest2 with
  | '"' :: t =>
    let nm := t.takeWhile (fun c => c ≠ '"')
    match t.dropWhile (fun c => c ≠ '"') with
    | ['"'] => if nm = [] then none else some nm
    | _ => none
  | _ => none

def tryKindLen (s : List Char) : Nat → Option (List Char × List Char)
  | 0 => none
  | i + 1 =>
    match headerTail (s.drop (i + 1)) with
    | some nm => some (s.take (i + 1), nm)
    | none => tryKindLen s i

def sectionCaptures (s : List Char) : Option (List Char × List Char) :=
  tryKindLen s (s.takeWhile (fun c => !wsC c)).length

/-- Embedding of `parse_ini` over an item stream.  State: the current
section name (empty = outside any section) and the accumulated
two-level map.  `none` models the panic of
`current_data.get_mut(&current_section).unwrap()`. -/
def parseIniItems (cur : String) (data : JobMap) :
    List IniItem → Option (Except String JobMap)
  | [] => some (Except.ok data)
  | IniItem.err e :: _ => some (Except.error e)
  | IniItem.sec s :: rest =>
    match sectionCaptures (trimL s.toList) with
    | some (kindC, nameC) =>
      if (getA data (String.mk kindC ++ " \x22" ++ String.mk nameC ++
          "\x22")).isSome then
        -- duplicate section header: warn and merge
        parseIniItems (String.mk kindC ++ " \x22" ++ String.mk nameC ++ "\x22")
          data rest
      else
        parseIniItems (String.mk kindC ++ " \x22" ++ String.mk nameC ++ "\x22")
          (putA data (String.mk kindC ++ " \x22" ++ String.mk nameC ++ "\x22")
            [("kind", [String.mk kindC]), ("name", [String.mk nameC])]) rest
    | none =>
      if String.mk (trimL s.toList) = "global" then
        parseIniItems (String.mk (trimL s.toList))
          (putA data (String.mk (trimL s.toList)) []) rest
      else
        some (Except.error ("Found unsupported ini header " ++ s))
  | IniItem.secEnd :: rest => parseIniItems "" data rest
  | IniItem.prop k v :: rest =>
    if cur = "" then
      some (Except.error ("Found property " ++ String.mk (trimL k.toList) ++
        " without a section"))
    else
      match v.map (fun s0 => String.mk (trimL s0.toList)) with
      | none => parseIniItems cur data rest   -- property without a value: warn and skip
      | some vv =>
        match getA data cur with
        | none => none
        | some secInfo =>
          parseIniItems cur (putA data cur
            (putA secInfo (String.mk (trimL k.toList))
              ((getA secInfo (String.mk (trimL k.toList))).getD [] ++ [vv]))) rest
  | IniItem.comment :: rest => parseIniItems cur data rest
  | IniItem.blank :: rest => parseIniItems cur data rest

def parse_ini (items : List IniItem) : Option (Except String JobMap) :=
  parseIniItems "" [] items

/-! ### The YAML loader (`src/src/loader/yaml.rs`)

`parse_yaml` consumes the event stream of the external `saphyr_parser`;
the embedding consumes the same stream as `Except String YamlEvent`
items (an `error` item models a tokenizer error).  `none` models the
panics of the `assert!(!current_job_name.is_empty())` at depth 1 and of
the two `.unwrap()` map accesses in the scalar handler.  Note that the
source never assigns `current_job_name` or `current_job_key` a
non-empty value, which the theorems below exploit. -/

inductive YamlEvent where
  | docStart : YamlEvent
  | docEnd : YamlEvent
  | nothing : YamlEvent
  | streamStart : YamlEvent
  | aliasEv : YamlEvent
  | scalar : String → YamlEvent
  | seqStart : YamlEvent
  | seqEnd : YamlEvent
  | mapStart : YamlEvent
  | mapEnd : YamlEvent
  | streamEnd : YamlEvent

structure YamlState where
  depth : Int
  isVec : Bool
  jobName : String
  jobKey : String
  data : JobMap

def parseYamlEvents (st : YamlState) :
    List (Except String YamlEvent) → Option (Except String JobMap)
  | [] => some (Except.error "The YAML parser ended unexpectedly")
  | Except.error e :: _ => some (Except.error e)
  | Except.ok ev :: rest =>
    match ev with
    | YamlEvent.docStart => parseYamlEvents st rest
    | YamlEvent.docEnd => parseYamlEvents st rest
    | YamlEvent.nothing => parseYamlEvents st rest
    | YamlEvent.streamStart => parseYamlEvents st rest
    | YamlEvent.aliasEv => parseYamlEvents st rest   -- warn and ignore
    | YamlEvent.scalar v =>
      if st.depth = 0 then
        if st.jobName ≠ "" then
          some (Except.error "Unexpected scalar in dict, a dict was was expected")
        else if (getA st.data v).isSome then
          parseYamlEvents st rest   -- duplicate key: warn
        else
          parseYamlEvents { st with data := putA st.data v [] } rest
      else if st.depth = 1 then
        match getA st.data st.jobName with
        | none => none
        | some subdict =>
          if st.jobKey = "" then
            if (getA subdict v).isSome then
              parseYamlEvents st rest   -- duplicate key: warn
            else
              parseYamlEvents
                { st with data := putA st.data st.jobName (putA subdict v []) } rest
          else
            match getA subdict st.jobKey with
            | none => none
            | some l =>
              parseYamlEvents
                { st with
                  data := putA st.data st.jobName (putA subdict st.jobKey (l ++ [v])) } rest
      else
        some (Except.error "Unhandled error while parsing yaml file: Unexpected scalar")
    | YamlEvent.seqStart =>
      if st.depth ≠ 1 ∨ st.isVec then
        some (Except.error "Arrays may only be used at depth 2 in YAML configuration")
      else parseYamlEvents { st with isVec := true } rest
    | YamlEvent.seqEnd => parseYamlEvents { st with isVec := false } rest
    | YamlEvent.mapStart =>
      let d := st.depth + 1
      if d = 0 then parseYamlEvents { st with depth := d } rest
      else if d = 1 then
        if st.jobName = "" then none   -- assert!(!current_job_name.is_empty())
        else parseYamlEvents { st with depth := d } rest
      else
        some (Except.error "Yaml dict is too deeply nested")
    | YamlEvent.mapEnd =>
      let d := st.depth - 1
      if d = 0 then parseYamlEvents { st with depth := d, jobKey := "" } rest
      else if d = 1 then parseYamlEvents { st with depth := d, jobName := "" } rest
      else parseYamlEvents { st with depth := d } rest
    | YamlEvent.streamEnd => some (Except.ok st.data)

def parse_yaml (events : List (Except String YamlEvent)) :
    Option (Except String JobMap) :=
  parseYamlEvents { depth := -1, isVec := false, jobName := "", jobKey := "", data := [] } events

/-! ### Invariant predicates used by the theorems -/

/-- Every attribute list stored in an attribute map is non-empty. -/
def attrListsNonEmpty (attrs : Attrs) : Prop :=
  ∀ a l, getA attrs a = some l → l ≠ []

/-- Every attribute list anywhere in a normalized map is non-empty. -/
def mapListsNonEmpty (m : JobMap) : Prop :=
  ∀ k attrs, getA m k = some attrs → attrListsNonEmpty attrs

/-- Every job entry of a normalized map has an empty attribute map. -/
def attrsAllEmpty (m : JobMap) : Prop :=
  ∀ k attrs, getA m k = some attrs → attrs = []

/-- No job entry of a normalized map records the kind `job-local`. -/
def noLocalKind (m : JobMap) : Prop :=
  ∀ k attrs ks, getA m k = some attrs → getA attrs "kind" = some ks →
    ¬ "job-local" ∈ ks

/-- The state invariant of `parse_yaml`: the job-name and job-key
cursors are never assigned a non-empty value by the source, the depth
stays at or below zero in every non-panicking run, and consequently no
attribute list is ever created. -/
def yInv (st : YamlState) : Prop :=
  st.jobName = "" ∧ st.jobKey = "" ∧ st.depth ≤ 0 ∧ attrsAllEmpty st.data

/-! ## Association-list lemmas -/

theorem getA_cons {α : Type} (k' : String) (v : α) (t : List (String × α))
    (k : String) : getA ((k', v) :: t) k = if k' = k then some v else getA t k :=
  rfl

theorem getA_putA {α : Type} (m : List (String × α)) (k k' : String) (v : α) :
    getA (putA m k v) k' = if k = k' then some v else getA m k' := by
  induction m with
  | nil => by_cases h : k = k' <;> simp [putA, getA, h]
  | cons hd t ih =>
    obtain ⟨k0, v0⟩ := hd
    by_cases h0 : k0 = k
    · subst h0
      by_cases h1 : k0 = k' <;> simp [putA, getA, h1]
    · by_cases h1 : k0 = k'
      · subst h1
        have hkk : ¬ k = k0 := fun hh => h0 hh.symm
        simp [putA, getA, h0, hkk]
      · simp [putA, getA, h0, h1, ih]

theorem getA_delA {α : Type} (m : List (String × α)) (k k' : String) :
    getA (delA m k) k' = if k = k' then none else getA m k' := by
  induction m with
  | nil => by_cases h : k = k' <;> simp [delA, getA, h]
  | cons hd t ih =>
    obtain ⟨k0, v0⟩ := hd
    by_cases h0 : k0 = k
    · subst h0
      by_cases h1 : k0 = k'
      · subst h1
        simp [delA, getA, ih]
      · simp [delA, getA, h1, ih]
    · by_cases h1 : k0 = k'
      · subst h1
        have hkk : ¬ k = k0 := fun hh => h0 hh.symm
        simp [delA, getA, h0, hkk, ih]
      · simp [delA, getA, h0, h1, ih]

/-! ## Lemmas about character splitting (`splitCh`) -/

theorem splitCh_ne_nil (sep : Char) (l : List Char) : splitCh sep l ≠ [] := by
  cases l with
  | nil => simp [splitCh]
  | cons c t =>
    by_cases h : c = sep
    · simp [splitCh, h]
    · simp only [splitCh, if_neg h]
      cases splitCh sep t <;> simp

theorem splitCh_head (sep : Char) (l : List Char) :
    (splitCh sep l).head? = some (l.takeWhile (fun c => c ≠ sep)) := by
  induction l with
  | nil => rfl
  | cons c t ih =>
    by_cases h : c = sep
    · subst h
      simp [splitCh, List.takeWhile_cons]
    · simp only [splitCh, if_neg h]
      cases hs : splitCh sep t with
      | nil => exact absurd hs (splitCh_ne_nil sep t)
      | cons s ss =>
        rw [hs] at ih
        simp only [List.head?_cons, Option.some.injEq] at ih ⊢
        simp only [ne_eq, decide_not] at ih ⊢
        rw [List.takeWhile_cons]
        simp [h, ← ih]

theorem splitCh_of_not_mem (sep : Char) (l : List Char) (h : sep ∉ l) :
    splitCh sep l = [l] := by
  induction l with
  | nil => rfl
  | cons c t ih =>
    simp only [List.mem_cons, not_or] at h
    have hcs : ¬ c = sep := fun hh => h.1 hh.symm
    simp only [splitCh, if_neg hcs, ih h.2]

theorem splitCh_append (sep : Char) (k v : List Char) (h : sep ∉ k) :
    splitCh sep (k ++ sep :: v) = k :: splitCh sep v := by
  induction k with
  | nil => simp [splitCh]
  | cons c t ih =>
    simp only [List.mem_cons, not_or] at h
    have hcs : ¬ c = sep := fun hh => h.1 hh.symm
    have ih2 : splitCh sep (t.append (sep :: v)) = t :: splitCh sep v := ih h.2
    simp only [List.cons_append, splitCh, if_neg hcs, ih2]

/-! ## Decimal printing and parsing lemmas (for the `@every` expansion) -/

theorem natReprAux_acc (f : Nat) : ∀ (n : Nat) (acc : List Char),
    natReprAux f n acc = natReprAux f n [] ++ acc := by
  induction f with
  | zero => intro n acc; simp [natReprAux]
  | succ f ih =>
    intro n acc
    simp only [natReprAux]
    by_cases h : n / 10 = 0
    · simp [h]
    · simp only [if_neg h]
      rw [ih (n / 10) (Char.ofNat (48 + n % 10) :: acc),
        ih (n / 10) [Char.ofNat (48 + n % 10)]]
      simp

theorem natReprAux_fuel (f : Nat) : ∀ (g n : Nat) (acc : List Char),
    n < f → n < g → natReprAux f n acc = natReprAux g n acc := by
  induction f with
  | zero => intro g n acc hf _; omega
  | succ f ih =>
    intro g n acc hf hg
    cases g with
    | zero => omega
    | succ g =>
      simp only [natReprAux]
      by_cases h : n / 10 = 0
      · simp [h]
      · simp only [if_neg h]
        have hn : 0 < n := by
          rcases Nat.eq_zero_or_pos n with h0 | h0
          · exact absurd (by simp [h0]) h
          · exact h0
        have hd : n / 10 < n := Nat.div_lt_self hn (by norm_num)
        exact ih g (n / 10) _ (by omega) (by omega)

theorem natRepr_base (n : Nat) (h : n / 10 = 0) :
    natRepr n = [Char.ofNat (48 + n % 10)] := by
  unfold natRepr
  simp [natReprAux, h]

theorem natRepr_step (n : Nat) (h : n / 10 ≠ 0) :
    natRepr n = natRepr (n / 10) ++ [Char.ofNat (48 + n % 10)] := by
  have hn : 0 < n := by
    rcases Nat.eq_zero_or_pos n with h0 | h0
    · exact absurd (by simp [h0]) h
    · exact h0
  have hd : n / 10 < n := Nat.div_lt_self hn (by norm_num)
  unfold natRepr
  conv_lhs => rw [show natReprAux (n + 1) n [] =
    natReprAux n (n / 10) [Char.ofNat (48 + n % 10)] by simp [natReprAux, h]]
  rw [natReprAux_fuel n (n / 10 + 1) (n / 10) _ (by omega) (by omega),
    natReprAux_acc]

theorem digitChar_isDigit (r : Nat) (h : r < 10) :
    (Char.ofNat (48 + r)).isDigit = true := by
  interval_cases r <;> decide

theorem digitChar_toNat (r : Nat) (h : r < 10) :
    (Char.ofNat (48 + r)).toNat = 48 + r := by
  interval_cases r <;> decide

theorem natRepr_all_digits (n : Nat) : ∀ c ∈ natRepr n, c.isDigit = true := by
  induction n using Nat.strong_induction_on with
  | _ n ih =>
    by_cases h : n / 10 = 0
    · rw [natRepr_base n h]
      intro c hc
      simp only [List.mem_singleton] at hc
      subst hc
      exact digitChar_isDigit _ (Nat.mod_lt _ (by norm_num))
    · have hn : 0 < n := by
        rcases Nat.eq_zero_or_pos n with h0 | h0
        · exact absurd (by simp [h0]) h
        · exact h0
      rw [natRepr_step n h]
      intro c hc
      rcases List.mem_append.mp hc with h1 | h1
      · exact ih (n / 10) (Nat.div_lt_self hn (by norm_num)) c h1
      · simp only [List.mem_singleton] at h1
        subst h1
        exact digitChar_isDigit _ (Nat.mod_lt _ (by norm_num))

theorem natRepr_ne_nil (n : Nat) : natRepr n ≠ [] := by
  by_cases h : n / 10 = 0
  · rw [natRepr_base n h]; simp
  · rw [natRepr_step n h]; simp

theorem digitsToNat_append (l : List Char) (c : Char) :
    digitsToNat (l ++ [c]) = digitsToNat l * 10 + (c.toNat - 48) := by
  unfold digitsToNat
  rw [List.foldl_append]
  rfl

theorem digitsToNat_natRepr (n : Nat) : digitsToNat (natRepr n) = n := by
  induction n using Nat.strong_induction_on with
  | _ n ih =>
    by_cases h : n / 10 = 0
    · have h10 : n < 10 := by omega
      rw [natRepr_base n h]
      have hm : n % 10 = n := Nat.mod_eq_of_lt h10
      unfold digitsToNat
      simp only [List.foldl_cons, List.foldl_nil]
      rw [digitChar_toNat _ (Nat.mod_lt _ (by norm_num))]
      omega
    · have hn : 0 < n := by
        rcases Nat.eq_zero_or_pos n with h0 | h0
        · exact absurd (by simp [h0]) h
        · exact h0
      rw [natRepr_step n h, digitsToNat_append,
        ih (n / 10) (Nat.div_lt_self hn (by norm_num)),
        digitChar_toNat _ (Nat.mod_lt _ (by norm_num))]
      omega

/-! ## takeWhile/dropWhile and matching lemmas for `everyMatch` -/

theorem takeWhile_all_append (p : Char → Bool) (l r : List Char)
    (h : ∀ c ∈ l, p c = true) :
    (l ++ r).takeWhile p = l ++ r.takeWhile p := by
  induction l with
  | nil => simp
  | cons c t ih =>
    simp only [List.cons_append, List.takeWhile_cons, h c (by simp), if_true,
      List.cons.injEq, true_and]
    exact ih (fun c hc => h c (by simp [hc]))

theorem dropWhile_all_append (p : Char → Bool) (l r : List Char)
    (h : ∀ c ∈ l, p c = true) :
    (l ++ r).dropWhile p = r.dropWhile p := by
  induction l with
  | nil => simp
  | cons c t ih =>
    simp only [List.cons_append, List.dropWhile_cons, h c (by simp), if_true]
    exact ih (fun c hc => h c (by simp [hc]))

theorem dropLead_append (p l : List Char) : dropLead p (p ++ l) = some l := by
  induction p with
  | nil => rfl
  | cons c t ih => simp [dropLead, ih]

theorem isDigit_not_ws (c : Char) (h : c.isDigit = true) : wsC c = false := by
  have hw : wsC c = true ∨ wsC c = false := Bool.eq_false_or_eq_true _
  rcases hw with hw | hw
  · exfalso
    simp only [wsC, decide_eq_true_eq] at hw
    rcases hw with h1 | h1 | h1 | h1 <;> subst h1 <;> exact absurd h (by decide)
  · exact hw

theorem everyMatch_every (ds : List Char) (u : Char) (tu : TimeUnit)
    (hne : ds ≠ []) (hdig : ∀ c ∈ ds, c.isDigit = true)
    (hu : (u = 's' ∧ tu = TimeUnit.s) ∨ (u = 'm' ∧ tu = TimeUnit.m) ∨
          (u = 'h' ∧ tu = TimeUnit.h)) :
    everyMatch ("@every ".toList ++ ds ++ [u]) = some (ds, tu) := by
  have hshape : "@every ".toList ++ ds ++ [u] =
      "@every".toList ++ (' ' :: (ds ++ [u])) := by
    simp
  have hundig : u.isDigit = false := by
    rcases hu with ⟨h1, _⟩ | ⟨h1, _⟩ | ⟨h1, _⟩ <;> subst h1 <;> decide
  obtain ⟨d0, ds', hds⟩ : ∃ d0 ds', ds = d0 :: ds' := by
    cases ds with
    | nil => exact absurd rfl hne
    | cons a b => exact ⟨a, b, rfl⟩
  have hd0 : wsC d0 = false := isDigit_not_ws d0 (hdig d0 (by simp [hds]))
  have h1 : (' ' :: (ds ++ [u])).takeWhile wsC = [' '] := by
    rw [List.takeWhile_cons]
    simp only [show wsC ' ' = true by decide, if_true]
    rw [hds, List.cons_append, List.takeWhile_cons]
    simp [hd0]
  have h3 : (' ' :: (ds ++ [u])).dropWhile wsC = ds ++ [u] := by
    rw [List.dropWhile_cons]
    simp only [show wsC ' ' = true by decide, if_true]
    rw [hds, List.cons_append, List.dropWhile_cons]
    simp [hd0]
  have h4 : (ds ++ [u]).takeWhile Char.isDigit = ds := by
    rw [takeWhile_all_append _ _ _ hdig, List.takeWhile_cons]
    simp [hundig]
  have h5 : (ds ++ [u]).dropWhile Char.isDigit = [u] := by
    rw [dropWhile_all_append _ _ _ hdig, List.dropWhile_cons]
    simp [hundig]
  rw [hshape]
  unfold everyMatch
  rw [dropLead_append]
  simp only [h1, h3, h4, h5]
  rw [if_neg (by simp : ¬([' '] : List Char) = []), if_neg hne]
  rcases hu with ⟨h6, h7⟩ | ⟨h6, h7⟩ | ⟨h6, h7⟩ <;> subst h6 <;> subst h7 <;> rfl

theorem trimL_sandwich (c u : Char) (mid : List Char)
    (hc : wsC c = false) (hu : wsC u = false) :
    trimL (c :: (mid ++ [u])) = c :: (mid ++ [u]) := by
  unfold trimL
  rw [List.dropWhile_cons]
  simp only [hc, Bool.false_eq_true, if_false]
  have hrev : (c :: (mid ++ [u])).reverse = u :: (c :: mid).reverse := by
    rw [show c :: (mid ++ [u]) = (c :: mid) ++ [u] by simp, List.reverse_append]
    rfl
  rw [hrev, List.dropWhile_cons]
  simp only [hu, Bool.false_eq_true, if_false]
  rw [show u :: (c :: mid).reverse = ((c :: mid) ++ [u]).reverse by
    rw [List.reverse_append]; rfl]
  rw [List.reverse_reverse]
  simp

theorem schedule_to_cron_every {C : Type} (cp : String → Except String C)
    (n : Nat) (hb : n ≤ i32Max) (u : Char) (tu : TimeUnit)
    (hu : (u = 's' ∧ tu = TimeUnit.s) ∨ (u = 'm' ∧ tu = TimeUnit.m) ∨
          (u = 'h' ∧ tu = TimeUnit.h)) :
    schedule_to_cron cp (String.mk ("@every ".toList ++ natRepr n ++ [u])) =
      some (cp (String.mk (expandEvery tu n))) := by
  have hlist : (String.mk ("@every ".toList ++ natRepr n ++ [u])).toList =
      "@every ".toList ++ natRepr n ++ [u] := rfl
  have hwu : wsC u = false := by
    rcases hu with ⟨h1, _⟩ | ⟨h1, _⟩ | ⟨h1, _⟩ <;> subst h1 <;> decide
  have hshape : "@every ".toList ++ natRepr n ++ [u] =
      '@' :: (("every ".toList ++ natRepr n) ++ [u]) := by
    rw [show "@every ".toList = '@' :: "every ".toList from rfl]
    simp [List.append_assoc]
  have htrim : trimL ("@every ".toList ++ natRepr n ++ [u]) =
      "@every ".toList ++ natRepr n ++ [u] := by
    rw [hshape]
    exact trimL_sandwich '@' u ("every ".toList ++ natRepr n) (by decide) hwu
  have hem : everyMatch ("@every ".toList ++ natRepr n ++ [u]) = some (natRepr n, tu) :=
    everyMatch_every (natRepr n) u tu (natRepr_ne_nil n) (natRepr_all_digits n) hu
  unfold schedule_to_cron
  rw [hlist, htrim]
  split
  · rename_i heq
    rw [hem] at heq
    simp at heq
  · rename_i ds' u' heq
    rw [hem] at heq
    injection heq with h2
    cases h2
    rw [digitsToNat_natRepr, if_pos hb]

/-! ## C8: the `@every` shorthand expansion -/

/-- C8 (amended).  For every positive interval N that fits in a 32-bit
signed integer, `schedule_to_cron` hands the cron library exactly the
expanded 6-field string: `@every Ns` becomes `*/N * * * * *`,
`@every Nm` becomes `0 */N * * * *`, and `@every Nh` becomes
`0 0 */N * * *`; in particular `@every 10s` reaches the cron parser as
`*/10 * * * * *`, the same string the direct input `*/10 * * * * *`
reaches it as, so both yield the same predicate.  (For N above
`i32::MAX` the claim fails: the interval `parse().unwrap()` panics, see
the counterexample.) -/
theorem c8_every_expansion {C : Type} (cronParse : String → Except String C)
    (n : Nat) (hp : 0 < n) (hb : n ≤ i32Max) :
    (schedule_to_cron cronParse (String.mk ("@every ".toList ++ natRepr n ++ ['s'])) =
      some (cronParse (String.mk ("*/".toList ++ natRepr n ++ " * * * * *".toList)))) ∧
    (schedule_to_cron cronParse (String.mk ("@every ".toList ++ natRepr n ++ ['m'])) =
      some (cronParse (String.mk ("0 */".toList ++ natRepr n ++ " * * * *".toList)))) ∧
    (schedule_to_cron cronParse (String.mk ("@every ".toList ++ natRepr n ++ ['h'])) =
      some (cronParse (String.mk ("0 0 */".toList ++ natRepr n ++ " * * *".toList)))) ∧
    (schedule_to_cron cronParse "@every 10s" = some (cronParse "*/10 * * * * *")) ∧
    (schedule_to_cron cronParse "*/10 * * * * *" = some (cronParse "*/10 * * * * *")) := by
  refine ⟨?_, ?_, ?_, rfl, rfl⟩
  · exact schedule_to_cron_every cronParse n hb 's' TimeUnit.s (Or.inl ⟨rfl, rfl⟩)
  · exact schedule_to_cron_every cronParse n hb 'm' TimeUnit.m (Or.inr (Or.inl ⟨rfl, rfl⟩))
  · exact schedule_to_cron_every cronParse n hb 'h' TimeUnit.h (Or.inr (Or.inr ⟨rfl, rfl⟩))

/-- Witness for C8 at N = 10 seconds. -/
theorem c8_every_expansion_witness :
    schedule_to_cron (fun s : String => Except.ok s)
      (String.mk ("@every ".toList ++ natRepr 10 ++ ['s'])) =
      some (Except.ok (String.mk ("*/".toList ++ natRepr 10 ++ " * * * * *".toList))) :=
  (c8_every_expansion (fun s : String => Except.ok s) 10 (by decide) (by decide)).1

/-- Counterexample for C8 as stated: at N = 2147483648 (one past
`i32::MAX`) the interval `parse::<i32>().unwrap()` panics, so the
schedule is not expanded and nothing reaches the cron parser. -/
theorem c8_every_expansion_counterexample :
    schedule_to_cron (fun s : String => Except.ok s) "@every 2147483648s" = none ∧
    (none : Option (Except String String)) ≠
      some (Except.ok "*/2147483648 * * * * *") := ⟨rfl, by simp⟩

/-! ## C1: schedule parse failures inside `JobInfo::try_from` -/

/-- C1 (code_bug).  When the schedule string is rejected by the cron
parser, `JobInfo::try_from` does not return an `Err`: the
`schedule_to_cron(..).unwrap()` at the construction of every variant
panics instead (modelled by `none`).  Shown on the attribute map
`{kind: [job-local], name: [x], command: [echo hi], schedule: [@bad]}`
for every cron parser that rejects the string `@bad`. -/
theorem c1_bad_schedule_panics {C : Type} (cronParse : String → Except String C)
    (e : String) (h : cronParse "@bad" = Except.error e) :
    tryFromJobInfo cronParse
      [("kind", ["job-local"]), ("name", ["x"]), ("command", ["echo hi"]),
       ("schedule", ["@bad"])] = none := by
  have hs : scheduleUnwrap cronParse "@bad" = none := by
    unfold scheduleUnwrap
    rw [show schedule_to_cron cronParse "@bad" = some (cronParse "@bad") from rfl, h]
  simp [tryFromJobInfo, getA, delA, namePopField, hs]

/-- Witness for C1 with a concrete always-rejecting cron parser. -/
theorem c1_bad_schedule_panics_witness :
    tryFromJobInfo (fun s : String => (Except.error s : Except String Unit))
      [("kind", ["job-local"]), ("name", ["x"]), ("command", ["echo hi"]),
       ("schedule", ["@bad"])] = none :=
  c1_bad_schedule_panics (fun s : String => (Except.error s : Except String Unit))
    "@bad" rfl

/-! ## C2: single-valued attributes with more than one value -/

/-- C2 (amended).  The length-one check on single-valued attributes is
enforced only by the variant decoders built on `take_one!` /
`require_one!` (here `LocalJobInfo::try_from`, shown for `schedule`):
a list of length other than one yields a config error.  The top-level
`JobInfo::try_from` used by the loaders performs no such check — see the
counterexample, where a two-element `command` list decodes successfully
to the last element. -/
theorem c2_variant_checks_single_value {C : Type}
    (cronParse : String → Except String C) (m : AttrMap) (l : List String)
    (h1 : getA m "schedule" = some l) (h2 : l.length ≠ 1) :
    ∃ e, tryFromLocalJobInfo cronParse m = some (Except.error e) := by
  have hro : require_one m "schedule" =
      Except.error ("The job key " ++ "schedule" ++ " has too many values") := by
    unfold require_one
    rw [h1]
    cases l with
    | nil => rfl
    | cons a t =>
      cases t with
      | nil => exact (h2 rfl).elim
      | cons b t2 => rfl
  refine ⟨"The job key " ++ "schedule" ++ " has too many values", ?_⟩
  unfold tryFromLocalJobInfo
  rw [hro]

/-- Witness for C2's amended theorem at a concrete two-valued schedule. -/
theorem c2_variant_checks_single_value_witness :
    ∃ e, tryFromLocalJobInfo (fun s : String => (Except.ok s : Except String String))
      [("schedule", ["@hourly", "@daily"])] = some (Except.error e) :=
  c2_variant_checks_single_value (fun s : String => (Except.ok s : Except String String))
    [("schedule", ["@hourly", "@daily"])] ["@hourly", "@daily"] rfl (by decide)

/-- Counterexample for C2 as stated: `JobInfo::try_from` accepts a
two-element `command` list without reporting any error, silently using
the last element. -/
theorem c2_counterexample_no_error_on_two_values :
    tryFromJobInfo (fun s : String => (Except.ok s : Except String String))
      [("kind", ["job-local"]), ("name", ["x"]), ("command", ["a", "b"]),
       ("schedule", ["@hourly"])] =
      some (Except.ok (JobInfo.localJob
        { name := "x", schedule := "@hourly", command := "b", dir := none,
          environment := [] })) := rfl

/-! ## C9: the environment-entry split of `LocalJobInfo::exec` -/

/-- C9.  For every LocalJob environment entry, `LocalJobInfo::exec` sets
the variable whose name is the substring before the first `=` to the
remaining `=`-separated segments joined with `.`; in particular the
entry `A=B=C` sets `A` to `B.C`, and `A=1` sets `A` to `1` (when the
entry has a single `=`, the value is everything after it). -/
theorem c9_env_split_join :
    (∀ e : List Char, (envAssignment e).1 = e.takeWhile (fun c => c ≠ '=')) ∧
    (∀ k v : List Char, '=' ∉ k → '=' ∉ v →
      envAssignment (k ++ '=' :: v) = (k, v)) ∧
    envAssignment "A=B=C".toList = ("A".toList, "B.C".toList) ∧
    envAssignment "A=1".toList = ("A".toList, "1".toList) := by
  refine ⟨?_, ?_, rfl, rfl⟩
  · intro e
    have hh := splitCh_head '=' e
    unfold envAssignment splitEq
    cases hs : splitCh '=' e with
    | nil => exact absurd hs (splitCh_ne_nil '=' e)
    | cons s ss =>
      rw [hs] at hh
      simp only [List.head?, Option.some.injEq] at hh
      simp [hh]
  · intro k v hk hv
    unfold envAssignment splitEq
    rw [splitCh_append '=' k v hk, splitCh_of_not_mem '=' v hv]
    simp [joinDots]

/-- Witness for C9 at a concrete entry with one `=`. -/
theorem c9_env_split_join_witness :
    envAssignment ("K".toList ++ '=' :: "7".toList) = ("K".toList, "7".toList) :=
  c9_env_split_join.2.1 "K".toList "7".toList (by decide) (by decide)

/-! ## C10: exit-code extraction in `LocalJobInfo::exec` -/

/-- C10.  After the child process finishes, `LocalJobInfo::exec` returns
`Ok` with a report whose `retval` is the child's exit code whenever the
child terminated with one, and panics (the final
`o.status.code().unwrap()`) when the child terminated without an exit
code, e.g. killed by a signal — it does not return an error value. -/
theorem c10_local_exec_exit_code :
    (∀ (o : ProcessOutput) (c : Int), o.statusCode = some c →
      localExecOutcome (Except.ok o) =
        some (Except.ok (ExecInfo.report
          { retval := c, stdout := none, stderr := none }))) ∧
    (∀ o : ProcessOutput, o.statusCode = none →
      localExecOutcome (Except.ok o) = none) := by
  constructor
  · intro o c h
    obtain ⟨sc, so, se⟩ := o
    have h' : sc = some c := h
    subst h'
    rfl
  · intro o h
    obtain ⟨sc, so, se⟩ := o
    have h' : sc = none := h
    subst h'
    rfl

/-- Witness for C10 at a child that exited with code 3. -/
theorem c10_local_exec_exit_code_witness :
    localExecOutcome (Except.ok { statusCode := some 3, stdout := [], stderr := [] }) =
      some (Except.ok (ExecInfo.report { retval := 3, stdout := none, stderr := none })) :=
  c10_local_exec_exit_code.1 { statusCode := some 3, stdout := [], stderr := [] } 3 rfl

/-! ## Label-pipeline lemmas -/

theorem getA_cons_self {α : Type} (k : String) (v : α) (t : List (String × α)) :
    getA ((k, v) :: t) k = some v := by
  unfold getA
  rw [if_pos rfl]

theorem putA_cons_self {α : Type} (k : String) (v x : α) (t : List (String × α)) :
    putA ((k, v) :: t) k x = (k, x) :: t := by
  unfold putA
  rw [if_pos rfl]

theorem getA_seed_kind (cid k n : String) :
    getA (seedAttrs cid k n) "kind" = some [k] := by
  unfold seedAttrs
  split <;> rfl

theorem getA_seed_other (cid k n p' : String) (h1 : ¬ p' = "kind")
    (h2 : ¬ p' = "name") (h3 : ¬ p' = "container") :
    getA (seedAttrs cid k n) p' = none := by
  have g1 : ¬ "kind" = p' := fun hh => h1 hh.symm
  have g2 : ¬ "name" = p' := fun hh => h2 hh.symm
  have g3 : ¬ "container" = p' := fun hh => h3 hh.symm
  unfold seedAttrs
  split <;> simp [getA, g1, g2, g3]

theorem processLabel_sig (prefs : List String) (au : Bool)
    (jp : String → Option JsonValue) (cid : String) (m : JobMap)
    (key value : String) (p kindC nameC paramC : List Char)
    (hsplit : splitCh '.' key.toList = [p, kindC, nameC, paramC])
    (hpref : prefs.contains (String.mk p) = true) :
    processLabel prefs au jp cid m (key, value) =
      processSig au jp cid m (String.mk kindC) (String.mk nameC)
        (String.mk paramC) value := by
  unfold processLabel
  rw [hsplit]
  show (if prefs.contains (String.mk p) = false then some (Except.ok m)
    else processSig au jp cid m (String.mk kindC) (String.mk nameC)
      (String.mk paramC) value) = _
  rw [if_neg (fun hh => by rw [hpref] at hh; exact Bool.noConfusion hh)]

theorem processSig_local_skip (jp : String → Option JsonValue) (cid : String)
    (m : JobMap) (name param value : String) :
    processSig false jp cid m "job-local" name param value = some (Except.ok m) := by
  unfold processSig
  rw [if_pos ⟨rfl, rfl⟩]

theorem processSig_pass (au : Bool) (jp : String → Option JsonValue)
    (cid : String) (m : JobMap) (kind name param value : String)
    (h : au = true ∨ ¬ kind = "job-local") :
    processSig au jp cid m kind name param value =
      processEvt jp (seedIfAbsent m cid kind name) (jobKeyOf cid kind name)
        kind param value := by
  unfold processSig
  rcases h with h | h
  · subst h
    rw [if_neg (fun hh => Bool.noConfusion hh.1)]
  · rw [if_neg (fun hh => h hh.2)]

theorem seedIfAbsent_absent (m : JobMap) (cid kind name : String)
    (h : getA m (jobKeyOf cid kind name) = none) :
    seedIfAbsent m cid kind name =
      putA m (jobKeyOf cid kind name) (seedAttrs cid kind name) := by
  unfold seedIfAbsent
  rw [h]
  rfl

theorem seedIfAbsent_present (m : JobMap) (cid kind name : String)
    (h : (getA m (jobKeyOf cid kind name)).isSome = true) :
    seedIfAbsent m cid kind name = m := by
  unfold seedIfAbsent
  rw [if_pos h]

theorem processEvt_mem (jp : String → Option JsonValue) (m1 : JobMap)
    (jobKey kind param value : String) (evt : Attrs) (ks : List String)
    (h1 : getA m1 jobKey = some evt) (h2 : getA evt "kind" = some ks)
    (hmem : kind ∈ ks) :
    processEvt jp m1 jobKey kind param value =
      processParam jp m1 jobKey evt param value := by
  unfold processEvt
  rw [h1]
  show (match getA evt "kind" with
    | none => none
    | some ks => checkKindBranch jp m1 jobKey evt param value kind ks) = _
  rw [h2]
  show checkKindBranch jp m1 jobKey evt param value kind ks = _
  unfold checkKindBranch
  rw [if_pos hmem]

theorem processEvt_conflict (jp : String → Option JsonValue) (m1 : JobMap)
    (jobKey kind param value : String) (evt : Attrs) (k0 : String)
    (ks : List String)
    (h1 : getA m1 jobKey = some evt) (h2 : getA evt "kind" = some (k0 :: ks))
    (hmem : kind ∉ k0 :: ks) :
    processEvt jp m1 jobKey kind param value =
      some (Except.error "Conflicting cron types on label") := by
  unfold processEvt
  rw [h1]
  show (match getA evt "kind" with
    | none => none
    | some ks => checkKindBranch jp m1 jobKey evt param value kind ks) = _
  rw [h2]
  show checkKindBranch jp m1 jobKey evt param value kind (k0 :: ks) = _
  unfold checkKindBranch
  rw [if_neg hmem]

theorem processParam_none (jp : String → Option JsonValue) (m1 : JobMap)
    (jobKey : String) (evt : Attrs) (param value : String)
    (h : getA evt param = none) :
    processParam jp m1 jobKey evt param value =
      some (Except.ok (putA m1 jobKey
        (putA evt param (storedValue jp param value)))) := by
  unfold processParam
  rw [h]

/-- A significant label whose parameter is none of the seeded attributes,
processed against an empty job map, inserts exactly one job entry. -/
theorem processLabel_fresh (prefs : List String)
    (jp : String → Option JsonValue) (cid key value : String)
    (p kindC nameC paramC : List Char)
    (hsplit : splitCh '.' key.toList = [p, kindC, nameC, paramC])
    (hpref : prefs.contains (String.mk p) = true)
    (hseed : getA (seedAttrs cid (String.mk kindC) (String.mk nameC))
      (String.mk paramC) = none) :
    processLabel prefs true jp cid [] (key, value) =
      some (Except.ok [(jobKeyOf cid (String.mk kindC) (String.mk nameC),
        putA (seedAttrs cid (String.mk kindC) (String.mk nameC)) (String.mk paramC)
          (storedValue jp (String.mk paramC) value))]) := by
  rw [processLabel_sig prefs true jp cid [] key value p kindC nameC paramC hsplit hpref,
    processSig_pass true jp cid [] (String.mk kindC) (String.mk nameC)
      (String.mk paramC) value (Or.inl rfl),
    seedIfAbsent_absent [] cid (String.mk kindC) (String.mk nameC) rfl,
    show putA ([] : JobMap) (jobKeyOf cid (String.mk kindC) (String.mk nameC))
        (seedAttrs cid (String.mk kindC) (String.mk nameC)) =
      [(jobKeyOf cid (String.mk kindC) (String.mk nameC),
        seedAttrs cid (String.mk kindC) (String.mk nameC))] from rfl,
    processEvt_mem jp _ _ (String.mk kindC) (String.mk paramC) value _ [String.mk kindC]
      (getA_cons_self _ _ _) (getA_seed_kind cid (String.mk kindC) (String.mk nameC))
      (List.mem_singleton.mpr rfl),
    processParam_none jp _ _ _ _ _ hseed,
    putA_cons_self]

/-! ## C6: significance of label keys -/

/-- C6.  A container label contributes to the normalized map only if its
key has exactly four dot-separated segments whose first segment is a
configured prefix: a key whose first segment is not a configured prefix,
or whose segment count differs from four, leaves the map unchanged,
while a significant key on a fresh map creates its job entry. -/
theorem c6_label_significance :
    (∀ (prefs : List String) (au : Bool) (jp : String → Option JsonValue)
       (cid : String) (m : JobMap) (key value : String) (p : List Char)
       (rest : List (List Char)),
      splitCh '.' key.toList = p :: rest →
      prefs.contains (String.mk p) = false →
      processLabel prefs au jp cid m (key, value) = some (Except.ok m)) ∧
    (∀ (prefs : List String) (au : Bool) (jp : String → Option JsonValue)
       (cid : String) (m : JobMap) (key value : String) (p : List Char)
       (rest : List (List Char)),
      splitCh '.' key.toList = p :: rest →
      rest.length ≠ 3 →
      processLabel prefs au jp cid m (key, value) = some (Except.ok m)) ∧
    (∀ (prefs : List String) (jp : String → Option JsonValue)
       (cid key value : String) (p kindC nameC paramC : List Char),
      splitCh '.' key.toList = [p, kindC, nameC, paramC] →
      prefs.contains (String.mk p) = true →
      ¬ String.mk paramC = "kind" → ¬ String.mk paramC = "name" →
      ¬ String.mk paramC = "container" →
      ∃ m', processLabel prefs true jp cid [] (key, value) = some (Except.ok m') ∧
        getA m' (jobKeyOf cid (String.mk kindC) (String.mk nameC)) ≠ none) := by
  refine ⟨?_, ?_, ?_⟩
  · intro prefs au jp cid m key value p rest hsplit hpref
    unfold processLabel
    rw [hsplit]
    show (if prefs.contains (String.mk p) = false then some (Except.ok m)
      else
        match rest with
        | [kindC, nameC, paramC] =>
          processSig au jp cid m (String.mk kindC) (String.mk nameC)
            (String.mk paramC) value
        | _ => some (Except.ok m)) = some (Except.ok m)
    rw [if_pos hpref]
  · intro prefs au jp cid m key value p rest hsplit hlen
    unfold processLabel
    rw [hsplit]
    show (if prefs.contains (String.mk p) = false then some (Except.ok m)
      else
        match rest with
        | [kindC, nameC, paramC] =>
          processSig au jp cid m (String.mk kindC) (String.mk nameC)
            (String.mk paramC) value
        | _ => some (Except.ok m)) = some (Except.ok m)
    by_cases hc : prefs.contains (String.mk p) = false
    · rw [if_pos hc]
    · rw [if_neg hc]
      rcases rest with _ | ⟨a, _ | ⟨b, _ | ⟨c, _ | ⟨d, t⟩⟩⟩⟩
      · rfl
      · rfl
      · rfl
      · exact absurd rfl hlen
      · rfl
  · intro prefs jp cid key value p kindC nameC paramC hsplit hpref h1 h2 h3
    have hseed := getA_seed_other cid (String.mk kindC) (String.mk nameC)
      (String.mk paramC) h1 h2 h3
    refine ⟨_, processLabel_fresh prefs jp cid key value p kindC nameC paramC
      hsplit hpref hseed, ?_⟩
    rw [getA_cons_self]
    simp

/-- Witness for C6: the key `cfc.enabled` (two segments) is ignored, and
the key `cfc.job-exec.h.schedule` creates its job entry. -/
theorem c6_label_significance_witness :
    processLabel ["cfc"] true (fun _ => none) "c1" [] ("cfc.enabled", "true") =
      some (Except.ok []) ∧
    (∃ m', processLabel ["cfc"] true (fun _ => none) "c1" []
        ("cfc.job-exec.h.schedule", "@hourly") = some (Except.ok m') ∧
      getA m' (jobKeyOf "c1" (String.mk "job-exec".toList)
        (String.mk "h".toList)) ≠ none) :=
  ⟨c6_label_significance.2.1 ["cfc"] true (fun _ => none) "c1" [] "cfc.enabled"
      "true" "cfc".toList ["enabled".toList] (by decide) (by decide),
   c6_label_significance.2.2 ["cfc"] (fun _ => none) "c1" "cfc.job-exec.h.schedule"
      "@hourly" "cfc".toList "job-exec".toList "h".toList "schedule".toList
      (by decide) (by decide) (by decide) (by decide) (by decide)⟩

/-! ## C7: the JSON-array fallback for volume/network/environment -/

theorem allStrings_map (vs : List String) :
    allStrings (vs.map JsonValue.str) = some vs := by
  induction vs with
  | nil => rfl
  | cons a t ih => simp [allStrings, ih]

/-- C7.  For the multi-valued parameters, the label value is stored as
the parsed array when it parses as a JSON array whose elements are all
strings, and as the singleton of the raw value otherwise (parse error,
non-array value, or an array with a non-string element); the step is a
total fallback that errors on no input value, and the pipeline stores
its result for the parameter. -/
theorem c7_json_array_fallback :
    (∀ (jp : String → Option JsonValue) (v : String) (vs : List String),
      jp v = some (JsonValue.arr (vs.map JsonValue.str)) →
      labelMultiValue jp v = vs) ∧
    (∀ (jp : String → Option JsonValue) (v : String),
      jp v = none → labelMultiValue jp v = [v]) ∧
    (∀ (jp : String → Option JsonValue) (v : String) (j : JsonValue),
      jp v = some j → extractStrings j = none → labelMultiValue jp v = [v]) ∧
    (∀ (prefs : List String) (jp : String → Option JsonValue)
       (cid key value : String) (p kindC nameC paramC : List Char),
      splitCh '.' key.toList = [p, kindC, nameC, paramC] →
      prefs.contains (String.mk p) = true →
      (String.mk paramC = "volume" ∨ String.mk paramC = "network" ∨
        String.mk paramC = "environment") →
      ∃ attrs, processLabel prefs true jp cid [] (key, value) =
          some (Except.ok [(jobKeyOf cid (String.mk kindC) (String.mk nameC), attrs)]) ∧
        getA attrs (String.mk paramC) = some (labelMultiValue jp value)) := by
  refine ⟨?_, ?_, ?_, ?_⟩
  · intro jp v vs h
    unfold labelMultiValue
    rw [h]
    show (extractStrings (JsonValue.arr (vs.map JsonValue.str))).getD [v] = vs
    rw [show extractStrings (JsonValue.arr (vs.map JsonValue.str)) =
      allStrings (vs.map JsonValue.str) from rfl, allStrings_map]
    rfl
  · intro jp v h
    unfold labelMultiValue
    rw [h]
  · intro jp v j h h2
    unfold labelMultiValue
    rw [h]
    show (extractStrings j).getD [v] = [v]
    rw [h2]
    rfl
  · intro prefs jp cid key value p kindC nameC paramC hsplit hpref htr
    have hne1 : ¬ String.mk paramC = "kind" := by
      rcases htr with h | h | h <;> rw [h] <;> decide
    have hne2 : ¬ String.mk paramC = "name" := by
      rcases htr with h | h | h <;> rw [h] <;> decide
    have hne3 : ¬ String.mk paramC = "container" := by
      rcases htr with h | h | h <;> rw [h] <;> decide
    have hseed := getA_seed_other cid (String.mk kindC) (String.mk nameC)
      (String.mk paramC) hne1 hne2 hne3
    have hst : storedValue jp (String.mk paramC) value = labelMultiValue jp value := by
      unfold storedValue
      rw [if_pos htr]
    have hf := processLabel_fresh prefs jp cid key value p kindC nameC paramC
      hsplit hpref hseed
    rw [hst] at hf
    exact ⟨_, hf, by rw [getA_putA, if_pos rfl]⟩

/-- Witness for C7: a parsed two-element string array is stored as-is,
and a malformed value degrades to a singleton. -/
theorem c7_json_array_fallback_witness :
    labelMultiValue
      (fun _ => some (JsonValue.arr [JsonValue.str "A=1", JsonValue.str "B=2"]))
      "x" = ["A=1", "B=2"] ∧
    labelMultiValue (fun _ => none) "A=1" = ["A=1"] :=
  ⟨c7_json_array_fallback.1
      (fun _ => some (JsonValue.arr [JsonValue.str "A=1", JsonValue.str "B=2"]))
      "x" ["A=1", "B=2"] rfl,
   c7_json_array_fallback.2.1 (fun _ => none) "A=1" rfl⟩

/-! ## C4: conflicting kinds under one job key -/

/-- C4.  The job key embeds the kind (`{container-id}_{kind}_{job-name}`),
so two labels with different kind segments normally address distinct job
keys — as in the claim's two-prefix example, where both job entries are
created and no error is raised.  When the same job key is nevertheless
reached with a kind segment that is not the recorded one (possible
because `_` may occur inside the segments themselves), the pipeline
fails with the conflicting-cron-types ConfigError. -/
theorem c4_conflicting_kinds :
    (∀ (prefs : List String) (au : Bool) (jp : String → Option JsonValue)
       (cid : String) (m : JobMap) (key value : String)
       (p kindC nameC paramC : List Char) (attrs : Attrs) (k0 : String)
       (ks : List String),
      splitCh '.' key.toList = [p, kindC, nameC, paramC] →
      prefs.contains (String.mk p) = true →
      (au = true ∨ ¬ String.mk kindC = "job-local") →
      getA m (jobKeyOf cid (String.mk kindC) (String.mk nameC)) = some attrs →
      getA attrs "kind" = some (k0 :: ks) →
      ¬ String.mk kindC ∈ k0 :: ks →
      processLabel prefs au jp cid m (key, value) =
        some (Except.error "Conflicting cron types on label")) ∧
    (∃ m', getTaggedTargets ["cfc", "ofelia"] false (fun _ => none)
        (fun _ => [{ id := "c1", labels := [("cfc.job-run.j.schedule", "@hourly"),
          ("ofelia.job-exec.j.schedule", "@hourly")] }]) = some (Except.ok m') ∧
      getA m' "c1_job-run_j" ≠ none ∧ getA m' "c1_job-exec_j" ≠ none) := by
  constructor
  · intro prefs au jp cid m key value p kindC nameC paramC attrs k0 ks
      hsplit hpref hau hget hkind hmem
    rw [processLabel_sig prefs au jp cid m key value p kindC nameC paramC hsplit hpref,
      processSig_pass au jp cid m (String.mk kindC) (String.mk nameC)
        (String.mk paramC) value hau,
      seedIfAbsent_present m cid (String.mk kindC) (String.mk nameC)
        (by rw [hget]; rfl),
      processEvt_conflict jp m _ (String.mk kindC) (String.mk paramC) value
        attrs k0 ks hget hkind hmem]
  · exact ⟨[("c1_job-run_j",
        [("kind", ["job-run"]), ("name", ["j"]), ("container", ["c1"]),
         ("schedule", ["@hourly"])]),
      ("c1_job-exec_j",
        [("kind", ["job-exec"]), ("name", ["j"]), ("container", ["c1"]),
         ("schedule", ["@hourly"])])],
      rfl, by decide, by decide⟩

/-- Witness for C4: the conflict error is reachable through the
underscore ambiguity of the job-key format — `cfc.a_b.c.schedule` maps
to the job key `c_a_b_c` which can already be recorded with kind `a`. -/
theorem c4_conflicting_kinds_witness :
    processLabel ["cfc"] false (fun _ => none) "c"
      [("c_a_b_c", [("kind", ["a"])])] ("cfc.a_b.c.schedule", "@hourly") =
      some (Except.error "Conflicting cron types on label") :=
  c4_conflicting_kinds.1 ["cfc"] false (fun _ => none) "c"
    [("c_a_b_c", [("kind", ["a"])])] "cfc.a_b.c.schedule" "@hourly"
    "cfc".toList "a_b".toList "c".toList "schedule".toList
    [("kind", ["a"])] "a" []
    (by decide) (by decide) (Or.inr (by decide)) rfl rfl (by decide)

/-! ## C5: the unsafe-job policy -/

theorem noLocalKind_putA (m : JobMap) (key : String) (attrs : Attrs)
    (h : noLocalKind m)
    (hattrs : ∀ ks, getA attrs "kind" = some ks → ¬ "job-local" ∈ ks) :
    noLocalKind (putA m key attrs) := by
  intro k a ks hga hgk
  rw [getA_putA] at hga
  by_cases hk : key = k
  · rw [if_pos hk] at hga
    injection hga with h2
    subst h2
    exact hattrs ks hgk
  · rw [if_neg hk] at hga
    exact h k a ks hga hgk

theorem seed_kind_noLocal (cid kind name : String) (hk : ¬ kind = "job-local") :
    ∀ ks, getA (seedAttrs cid kind name) "kind" = some ks → ¬ "job-local" ∈ ks := by
  intro ks h
  rw [getA_seed_kind] at h
  injection h with h2
  subst h2
  rw [List.mem_singleton]
  exact fun hh => hk hh.symm

theorem processParam_noLocal (jp : String → Option JsonValue) (m1 : JobMap)
    (jobKey : String) (evt : Attrs) (param value : String) (m' : JobMap)
    (h1 : noLocalKind m1)
    (hkind : ∀ ks, getA evt "kind" = some ks → ¬ "job-local" ∈ ks)
    (hkindSome : ¬ getA evt "kind" = none)
    (hp : processParam jp m1 jobKey evt param value = some (Except.ok m')) :
    noLocalKind m' := by
  unfold processParam at hp
  cases hev : getA evt param with
  | some pv =>
    rw [hev] at hp
    have hp2 : (if param = "container" ∧ containerDrop evt value = true then
        some (Except.ok (putA m1 jobKey
          (putA (delA evt "container") param (storedValue jp param value))))
      else if value ∈ pv then some (Except.ok m1)
      else some (Except.error
        "Parameter set more than once has different values in its occurences")) =
        some (Except.ok m') := hp
    by_cases hcond : param = "container" ∧ containerDrop evt value = true
    · rw [if_pos hcond] at hp2
      injection hp2 with h2
      injection h2 with h3
      subst h3
      apply noLocalKind_putA m1 jobKey _ h1
      intro ks hks
      rw [getA_putA, if_neg (by rw [hcond.1]; decide), getA_delA,
        if_neg (by decide : ¬ ("container" : String) = "kind")] at hks
      exact hkind ks hks
    · rw [if_neg hcond] at hp2
      by_cases hv : value ∈ pv
      · rw [if_pos hv] at hp2
        injection hp2 with h2
        injection h2 with h3
        subst h3
        exact h1
      · rw [if_neg hv] at hp2
        injection hp2 with h2
        exact Except.noConfusion h2
  | none =>
    rw [hev] at hp
    have hp2 : some (Except.ok (putA m1 jobKey
        (putA evt param (storedValue jp param value)))) = some (Except.ok m') := hp
    injection hp2 with h2
    injection h2 with h3
    subst h3
    apply noLocalKind_putA m1 jobKey _ h1
    intro ks hks
    by_cases hpk : param = "kind"
    · rw [hpk] at hev
      exact absurd hev hkindSome
    · rw [getA_putA, if_neg hpk] at hks
      exact hkind ks hks

theorem processEvt_noLocal (jp : String → Option JsonValue) (m1 : JobMap)
    (jobKey kind param value : String) (m' : JobMap)
    (h1 : noLocalKind m1)
    (hp : processEvt jp m1 jobKey kind param value = some (Except.ok m')) :
    noLocalKind m' := by
  unfold processEvt at hp
  cases hev : getA m1 jobKey with
  | none =>
    rw [hev] at hp
    exact Option.noConfusion hp
  | some evt =>
    rw [hev] at hp
    have hp1 : (match getA evt "kind" with
      | none => none
      | some ks => checkKindBranch jp m1 jobKey evt param value kind ks) =
        some (Except.ok m') := hp
    cases hks : getA evt "kind" with
    | none =>
      rw [hks] at hp1
      exact Option.noConfusion hp1
    | some ks =>
      rw [hks] at hp1
      have hp2 : checkKindBranch jp m1 jobKey evt param value kind ks =
        some (Except.ok m') := hp1
      unfold checkKindBranch at hp2
      by_cases hmem : kind ∈ ks
      · rw [if_pos hmem] at hp2
        exact processParam_noLocal jp m1 jobKey evt param value m' h1
          (h1 jobKey evt · hev) (by rw [hks]; exact fun hh => Option.noConfusion hh) hp2
      · rw [if_neg hmem] at hp2
        cases ks with
        | nil => exact Option.noConfusion hp2
        | cons k0 kt =>
          injection hp2 with h2
          exact Except.noConfusion h2

theorem processSig_noLocal (jp : String → Option JsonValue) (cid : String)
    (m : JobMap) (kind name param value : String) (m' : JobMap)
    (h : noLocalKind m)
    (hp : processSig false jp cid m kind name param value = some (Except.ok m')) :
    noLocalKind m' := by
  by_cases hk : kind = "job-local"
  · subst hk
    rw [processSig_local_skip] at hp
    injection hp with h2
    injection h2 with h3
    subst h3
    exact h
  · rw [processSig_pass false jp cid m kind name param value (Or.inr hk)] at hp
    have hm1 : noLocalKind (seedIfAbsent m cid kind name) := by
      unfold seedIfAbsent
      by_cases hs : (getA m (jobKeyOf cid kind name)).isSome = true
      · rw [if_pos hs]
        exact h
      · rw [if_neg hs]
        exact noLocalKind_putA m (jobKeyOf cid kind name) (seedAttrs cid kind name)
          h (seed_kind_noLocal cid kind name hk)
    exact processEvt_noLocal jp _ _ kind param value m' hm1 hp

theorem processLabel_noLocal (prefs : List String)
    (jp : String → Option JsonValue) (cid : String) (m : JobMap)
    (kv : String × String) (m' : JobMap) (h : noLocalKind m)
    (hp : processLabel prefs false jp cid m kv = some (Except.ok m')) :
    noLocalKind m' := by
  unfold processLabel at hp
  cases hsp : splitCh '.' kv.1.toList with
  | nil =>
    rw [hsp] at hp
    have hp2 : some (Except.ok m) = some (Except.ok m') := hp
    injection hp2 with h2
    injection h2 with h3
    subst h3
    exact h
  | cons p rest =>
    rw [hsp] at hp
    have hp2 : (if prefs.contains (String.mk p) = false then some (Except.ok m)
      else
        match rest with
        | [kindC, nameC, paramC] =>
          processSig false jp cid m (String.mk kindC) (String.mk nameC)
            (String.mk paramC) kv.2
        | _ => some (Except.ok m)) = some (Except.ok m') := hp
    by_cases hc : prefs.contains (String.mk p) = false
    · rw [if_pos hc] at hp2
      injection hp2 with h2
      injection h2 with h3
      subst h3
      exact h
    · rw [if_neg hc] at hp2
      rcases rest with _ | ⟨a, _ | ⟨b, _ | ⟨c, _ | ⟨d, t⟩⟩⟩⟩
      · injection hp2 with h2
        injection h2 with h3
        subst h3
        exact h
      · injection hp2 with h2
        injection h2 with h3
        subst h3
        exact h
      · injection hp2 with h2
        injection h2 with h3
        subst h3
        exact h
      · exact processSig_noLocal jp cid m (String.mk a) (String.mk b)
          (String.mk c) kv.2 m' h hp2
      · injection hp2 with h2
        injection h2 with h3
        subst h3
        exact h

theorem processLabels_noLocal (prefs : List String)
    (jp : String → Option JsonValue) (cid : String) :
    ∀ (labels : List (String × String)) (m : JobMap) (m' : JobMap),
      noLocalKind m →
      processLabels prefs false jp cid m labels = some (Except.ok m') →
      noLocalKind m' := by
  intro labels
  induction labels with
  | nil =>
    intro m m' h hp
    have hp2 : some (Except.ok m) = some (Except.ok m') := hp
    injection hp2 with h2
    injection h2 with h3
    subst h3
    exact h
  | cons kv rest ih =>
    intro m m' h hp
    unfold processLabels at hp
    cases hpl : processLabel prefs false jp cid m kv with
    | none =>
      rw [hpl] at hp
      exact Option.noConfusion hp
    | some r =>
      rw [hpl] at hp
      cases r with
      | error e =>
        have hp2 : some (Except.error e) = some (Except.ok m') := hp
        injection hp2 with h2
        exact Except.noConfusion h2
      | ok m2 =>
        have hp2 : processLabels prefs false jp cid m2 rest = some (Except.ok m') := hp
        exact ih m2 m' (processLabel_noLocal prefs jp cid m kv m2 h hpl) hp2

theorem processContainers_noLocal (prefs : List String)
    (jp : String → Option JsonValue) :
    ∀ (cs : List Container) (st st' : List String × JobMap),
      noLocalKind st.2 →
      processContainers prefs false jp st cs = some (Except.ok st') →
      noLocalKind st'.2 := by
  intro cs
  induction cs with
  | nil =>
    intro st st' h hp
    have hp2 : some (Except.ok st) = some (Except.ok st') := hp
    injection hp2 with h2
    injection h2 with h3
    subst h3
    exact h
  | cons c rest ih =>
    intro st st' h hp
    unfold processContainers at hp
    cases hpc : processContainer prefs false jp st c with
    | none =>
      rw [hpc] at hp
      exact Option.noConfusion hp
    | some r =>
      rw [hpc] at hp
      cases r with
      | error e =>
        have hp2 : some (Except.error e) = some (Except.ok st') := hp
        injection hp2 with h2
        exact Except.noConfusion h2
      | ok st2 =>
        have hp2 : processContainers prefs false jp st2 rest = some (Except.ok st') := hp
        refine ih st2 st' ?_ hp2
        unfold processContainer at hpc
        by_cases hdup : st.1.contains c.id = true
        · rw [if_pos hdup] at hpc
          injection hpc with h2
          injection h2 with h3
          subst h3
          exact h
        · rw [if_neg hdup] at hpc
          cases hpl : processLabels prefs false jp c.id st.2 c.labels with
          | none =>
            rw [hpl] at hpc
            exact Option.noConfusion hpc
          | some r2 =>
            rw [hpl] at hpc
            cases r2 with
            | error e =>
              have hp3 : some (Except.error e) = some (Except.ok st2) := hpc
              injection hp3 with h2
              exact Except.noConfusion h2
            | ok m2 =>
              have hp3 : some (Except.ok ((c.id :: st.1, m2) :
                  List String × JobMap)) = some (Except.ok st2) := hpc
              injection hp3 with h2
              injection h2 with h3
              subst h3
              exact processLabels_noLocal prefs jp c.id c.labels st.2 m2 h hpl

theorem processPrefixes_noLocal (allPrefs : List String)
    (jp : String → Option JsonValue) (query : String → List Container) :
    ∀ (ps : List String) (st st' : List String × JobMap),
      noLocalKind st.2 →
      processPrefixes allPrefs false jp query st ps = some (Except.ok st') →
      noLocalKind st'.2 := by
  intro ps
  induction ps with
  | nil =>
    intro st st' h hp
    have hp2 : some (Except.ok st) = some (Except.ok st') := hp
    injection hp2 with h2
    injection h2 with h3
    subst h3
    exact h
  | cons p rest ih =>
    intro st st' h hp
    unfold processPrefixes at hp
    cases hpc : processContainers allPrefs false jp st (query p) with
    | none =>
      rw [hpc] at hp
      exact Option.noConfusion hp
    | some r =>
      rw [hpc] at hp
      cases r with
      | error e =>
        have hp2 : some (Except.error e) = some (Except.ok st') := hp
        injection hp2 with h2
        exact Except.noConfusion h2
      | ok st2 =>
        have hp2 : processPrefixes allPrefs false jp query st2 rest =
          some (Except.ok st') := hp
        exact ih st2 st' (processContainers_noLocal allPrefs jp (query p) st st2 h hpc) hp2

/-- C5.  With `allow_unsafe_jobs` false, a significant label whose kind
segment is `job-local` is skipped before any map mutation, and
consequently the normalized map returned by the whole pipeline contains
no job entry recording the kind `job-local`. -/
theorem c5_local_labels_skipped :
    (∀ (prefs : List String) (jp : String → Option JsonValue)
       (cid : String) (m : JobMap) (key value : String)
       (p kindC nameC paramC : List Char),
      splitCh '.' key.toList = [p, kindC, nameC, paramC] →
      String.mk kindC = "job-local" →
      processLabel prefs false jp cid m (key, value) = some (Except.ok m)) ∧
    (∀ (prefs : List String) (jp : String → Option JsonValue)
       (query : String → List Container) (m : JobMap),
      getTaggedTargets prefs false jp query = some (Except.ok m) →
      noLocalKind m) := by
  constructor
  · intro prefs jp cid m key value p kindC nameC paramC hsplit hkind
    unfold processLabel
    rw [hsplit]
    show (if prefs.contains (String.mk p) = false then some (Except.ok m)
      else processSig false jp cid m (String.mk kindC) (String.mk nameC)
        (String.mk paramC) value) = some (Except.ok m)
    by_cases hc : prefs.contains (String.mk p) = false
    · rw [if_pos hc]
    · rw [if_neg hc, hkind, processSig_local_skip]
  · intro prefs jp query m hp
    unfold getTaggedTargets at hp
    cases hpp : processPrefixes prefs false jp query ([], []) prefs with
    | none =>
      rw [hpp] at hp
      exact Option.noConfusion hp
    | some r =>
      rw [hpp] at hp
      cases r with
      | error e =>
        have hp2 : some (Except.error e) = some (Except.ok m) := hp
        injection hp2 with h2
        exact Except.noConfusion h2
      | ok st =>
        have hp2 : some (Except.ok st.2) = some (Except.ok m) := hp
        injection hp2 with h2
        injection h2 with h3
        subst h3
        exact processPrefixes_noLocal prefs jp query prefs ([], []) st
          (fun k attrs ks hga _ => by rw [show getA ([] : JobMap) k = none from rfl] at hga
                                      exact Option.noConfusion hga) hpp

/-- Witness for C5: a map built from a container carrying both a
`job-local` and a `job-exec` label contains only the `job-exec` entry,
whose kind list does not mention `job-local`. -/
theorem c5_local_labels_skipped_witness :
    getTaggedTargets ["cfc"] false (fun _ => none)
      (fun _ => [{ id := "c1", labels := [("cfc.job-local.x.command", "rm"),
        ("cfc.job-exec.y.schedule", "@hourly")] }]) =
      some (Except.ok [("c1_job-exec_y",
        [("kind", ["job-exec"]), ("name", ["y"]), ("container", ["c1"]),
         ("schedule", ["@hourly"])])]) ∧
    ¬ "job-local" ∈ (["job-exec"] : List String) :=
  ⟨rfl,
   c5_local_labels_skipped.2 ["cfc"] (fun _ => none)
     (fun _ => [{ id := "c1", labels := [("cfc.job-local.x.command", "rm"),
       ("cfc.job-exec.y.schedule", "@hourly")] }])
     [("c1_job-exec_y",
       [("kind", ["job-exec"]), ("name", ["y"]), ("container", ["c1"]),
        ("schedule", ["@hourly"])])]
     rfl "c1_job-exec_y"
     [("kind", ["job-exec"]), ("name", ["y"]), ("container", ["c1"]),
      ("schedule", ["@hourly"])]
     ["job-exec"] rfl rfl⟩

/-! ## C3: shape invariants of the file loaders -/

theorem attrListsNonEmpty_putA (attrs : Attrs) (k : String) (v : List String)
    (h : attrListsNonEmpty attrs) (hv : v ≠ []) :
    attrListsNonEmpty (putA attrs k v) := by
  intro a l hl
  rw [getA_putA] at hl
  by_cases hk : k = a
  · rw [if_pos hk] at hl
    injection hl with h2
    subst h2
    exact hv
  · rw [if_neg hk] at hl
    exact h a l hl

theorem mapListsNonEmpty_putA (m : JobMap) (key : String) (attrs : Attrs)
    (h : mapListsNonEmpty m) (ha : attrListsNonEmpty attrs) :
    mapListsNonEmpty (putA m key attrs) := by
  intro k a hga
  rw [getA_putA] at hga
  by_cases hk : key = k
  · rw [if_pos hk] at hga
    injection hga with h2
    subst h2
    exact ha
  · rw [if_neg hk] at hga
    exact h k a hga

theorem attrListsNonEmpty_nil : attrListsNonEmpty [] := by
  intro a l hl
  exact Option.noConfusion hl

theorem attrListsNonEmpty_pair (k n : String) :
    attrListsNonEmpty [("kind", [k]), ("name", [n])] := by
  intro a l hl
  rw [getA_cons] at hl
  by_cases h1 : "kind" = a
  · rw [if_pos h1] at hl
    injection hl with h2
    subst h2
    simp
  · rw [if_neg h1, getA_cons] at hl
    by_cases h2 : "name" = a
    · rw [if_pos h2] at hl
      injection hl with h3
      subst h3
      simp
    · rw [if_neg h2] at hl
      exact Option.noConfusion hl

theorem parseIni_nonEmpty :
    ∀ (items : List IniItem) (cur : String) (data m : JobMap),
      mapListsNonEmpty data →
      parseIniItems cur data items = some (Except.ok m) →
      mapListsNonEmpty m := by
  intro items
  induction items with
  | nil =>
    intro cur data m h hp
    have hp2 : some (Except.ok data) = some (Except.ok m) := hp
    injection hp2 with h2
    injection h2 with h3
    subst h3
    exact h
  | cons it rest ih =>
    intro cur data m h hp
    cases it with
    | err e =>
      have hp2 : some (Except.error e) = some (Except.ok m) := hp
      injection hp2 with h2
      exact Except.noConfusion h2
    | sec s =>
      unfold parseIniItems at hp
      cases hsc : sectionCaptures (trimL s.toList) with
      | some kn =>
        obtain ⟨kindC, nameC⟩ := kn
        rw [hsc] at hp
        have hp1 : (if (getA data (String.mk kindC ++ " \x22" ++ String.mk nameC ++
            "\x22")).isSome = true then
            parseIniItems (String.mk kindC ++ " \x22" ++ String.mk nameC ++ "\x22")
              data rest
          else
            parseIniItems (String.mk kindC ++ " \x22" ++ String.mk nameC ++ "\x22")
              (putA data (String.mk kindC ++ " \x22" ++ String.mk nameC ++ "\x22")
                [("kind", [String.mk kindC]), ("name", [String.mk nameC])]) rest) =
            some (Except.ok m) := hp
        by_cases hdup : (getA data (String.mk kindC ++ " \x22" ++ String.mk nameC ++
            "\x22")).isSome = true
        · rw [if_pos hdup] at hp1
          exact ih _ data m h hp1
        · rw [if_neg hdup] at hp1
          exact ih _ _ m (mapListsNonEmpty_putA data _ _ h
            (attrListsNonEmpty_pair (String.mk kindC) (String.mk nameC))) hp1
      | none =>
        rw [hsc] at hp
        have hp1 : (if String.mk (trimL s.toList) = "global" then
            parseIniItems (String.mk (trimL s.toList))
              (putA data (String.mk (trimL s.toList)) []) rest
          else some (Except.error ("Found unsupported ini header " ++ s))) =
            some (Except.ok m) := hp
        by_cases hg : String.mk (trimL s.toList) = "global"
        · rw [if_pos hg] at hp1
          exact ih _ _ m (mapListsNonEmpty_putA data _ _ h attrListsNonEmpty_nil) hp1
        · rw [if_neg hg] at hp1
          injection hp1 with h2
          exact Except.noConfusion h2
    | secEnd =>
      have hp1 : parseIniItems "" data rest = some (Except.ok m) := hp
      exact ih "" data m h hp1
    | prop k v =>
      have hp1 : (if cur = "" then
          some (Except.error ("Found property " ++ String.mk (trimL k.toList) ++
            " without a section"))
        else
          match v.map (fun s => String.mk (trimL s.toList)) with
          | none => parseIniItems cur data rest
          | some vv =>
            match getA data cur with
            | none => none
            | some secInfo =>
              parseIniItems cur (putA data cur
                (putA secInfo (String.mk (trimL k.toList))
                  ((getA secInfo (String.mk (trimL k.toList))).getD [] ++ [vv]))) rest) =
          some (Except.ok m) := hp
      by_cases hcur : cur = ""
      · rw [if_pos hcur] at hp1
        injection hp1 with h2
        exact Except.noConfusion h2
      · rw [if_neg hcur] at hp1
        cases v with
        | none =>
          have hp2 : parseIniItems cur data rest = some (Except.ok m) := hp1
          exact ih cur data m h hp2
        | some v0 =>
          have hp2 : (match getA data cur with
            | none => none
            | some secInfo =>
              parseIniItems cur (putA data cur
                (putA secInfo (String.mk (trimL k.toList))
                  ((getA secInfo (String.mk (trimL k.toList))).getD [] ++
                    [String.mk (trimL v0.toList)]))) rest) = some (Except.ok m) := hp1
          cases hsec : getA data cur with
          | none =>
            rw [hsec] at hp2
            exact Option.noConfusion hp2
          | some secInfo =>
            rw [hsec] at hp2
            have hp3 : parseIniItems cur (putA data cur
                (putA secInfo (String.mk (trimL k.toList))
                  ((getA secInfo (String.mk (trimL k.toList))).getD [] ++
                    [String.mk (trimL v0.toList)]))) rest = some (Except.ok m) := hp2
            refine ih cur _ m ?_ hp3
            exact mapListsNonEmpty_putA data cur _ h
              (attrListsNonEmpty_putA secInfo _ _ (h cur secInfo hsec) (by simp))
    | comment =>
      have hp1 : parseIniItems cur data rest = some (Except.ok m) := hp
      exact ih cur data m h hp1
    | blank =>
      have hp1 : parseIniItems cur data rest = some (Except.ok m) := hp
      exact ih cur data m h hp1

theorem attrsAllEmpty_putA_nil (m : JobMap) (v : String) (h : attrsAllEmpty m) :
    attrsAllEmpty (putA m v []) := by
  intro k a hga
  rw [getA_putA] at hga
  by_cases hk : v = k
  · rw [if_pos hk] at hga
    injection hga with h2
    exact h2.symm
  · rw [if_neg hk] at hga
    exact h k a hga

theorem parseYaml_allEmpty :
    ∀ (evs : List (Except String YamlEvent)) (st : YamlState) (m : JobMap),
      yInv st → parseYamlEvents st evs = some (Except.ok m) →
      attrsAllEmpty m := by
  intro evs
  induction evs with
  | nil =>
    intro st m _ hp
    have hp2 : some (Except.error "The YAML parser ended unexpectedly") =
      some (Except.ok m) := hp
    injection hp2 with h2
    exact Except.noConfusion h2
  | cons tk rest ih =>
    intro st m hinv hp
    obtain ⟨d, iv, jn, jk, dt⟩ := st
    obtain ⟨hjn, hjk, hd, hdata⟩ := hinv
    have hjn' : jn = "" := hjn
    have hjk' : jk = "" := hjk
    subst hjn'
    subst hjk'
    have hd' : d ≤ 0 := hd
    have hdata' : attrsAllEmpty dt := hdata
    cases tk with
    | error e =>
      have hp2 : some (Except.error e) = some (Except.ok m) := hp
      injection hp2 with h2
      exact Except.noConfusion h2
    | ok ev =>
      cases ev with
      | docStart => exact ih ⟨d, iv, "", "", dt⟩ m ⟨rfl, rfl, hd', hdata'⟩ hp
      | docEnd => exact ih ⟨d, iv, "", "", dt⟩ m ⟨rfl, rfl, hd', hdata'⟩ hp
      | nothing => exact ih ⟨d, iv, "", "", dt⟩ m ⟨rfl, rfl, hd', hdata'⟩ hp
      | streamStart => exact ih ⟨d, iv, "", "", dt⟩ m ⟨rfl, rfl, hd', hdata'⟩ hp
      | aliasEv => exact ih ⟨d, iv, "", "", dt⟩ m ⟨rfl, rfl, hd', hdata'⟩ hp
      | scalar v =>
        have hp1 : (if d = 0 then
            (if (getA dt v).isSome = true then
              parseYamlEvents ⟨d, iv, "", "", dt⟩ rest
            else parseYamlEvents ⟨d, iv, "", "", putA dt v []⟩ rest)
          else if d = 1 then
            (match getA dt "" with
             | none => none
             | some subdict =>
               if (getA subdict v).isSome = true then
                 parseYamlEvents ⟨d, iv, "", "", dt⟩ rest
               else
                 parseYamlEvents ⟨d, iv, "", "", putA dt "" (putA subdict v [])⟩ rest)
          else some (Except.error
            "Unhandled error while parsing yaml file: Unexpected scalar")) =
            some (Except.ok m) := hp
        by_cases hd0 : d = 0
        · rw [if_pos hd0] at hp1
          by_cases hgs : (getA dt v).isSome = true
          · rw [if_pos hgs] at hp1
            exact ih ⟨d, iv, "", "", dt⟩ m ⟨rfl, rfl, hd', hdata'⟩ hp1
          · rw [if_neg hgs] at hp1
            exact ih ⟨d, iv, "", "", putA dt v []⟩ m
              ⟨rfl, rfl, hd', attrsAllEmpty_putA_nil dt v hdata'⟩ hp1
        · rw [if_neg hd0] at hp1
          by_cases hd1 : d = 1
          · exact absurd hd1 (by omega)
          · rw [if_neg hd1] at hp1
            injection hp1 with h2
            exact Except.noConfusion h2
      | seqStart =>
        have hp1 : (if d ≠ 1 ∨ iv = true then
            some (Except.error
              "Arrays may only be used at depth 2 in YAML configuration")
          else parseYamlEvents ⟨d, true, "", "", dt⟩ rest) =
            some (Except.ok m) := hp
        rw [if_pos (Or.inl (by omega))] at hp1
        injection hp1 with h2
        exact Except.noConfusion h2
      | seqEnd =>
        exact ih ⟨d, false, "", "", dt⟩ m ⟨rfl, rfl, hd', hdata'⟩ hp
      | mapStart =>
        have hp1 : (if d + 1 = 0 then parseYamlEvents ⟨d + 1, iv, "", "", dt⟩ rest
          else if d + 1 = 1 then none
          else some (Except.error "Yaml dict is too deeply nested")) =
            some (Except.ok m) := hp
        by_cases h0 : d + 1 = 0
        · rw [if_pos h0] at hp1
          exact ih ⟨d + 1, iv, "", "", dt⟩ m ⟨rfl, rfl, by show d + 1 ≤ 0; omega, hdata'⟩ hp1
        · rw [if_neg h0] at hp1
          by_cases h1 : d + 1 = 1
          · rw [if_pos h1] at hp1
            exact Option.noConfusion hp1
          · rw [if_neg h1] at hp1
            injection hp1 with h2
            exact Except.noConfusion h2
      | mapEnd =>
        have hp1 : (if d - 1 = 0 then parseYamlEvents ⟨d - 1, iv, "", "", dt⟩ rest
          else if d - 1 = 1 then parseYamlEvents ⟨d - 1, iv, "", "", dt⟩ rest
          else parseYamlEvents ⟨d - 1, iv, "", "", dt⟩ rest) =
            some (Except.ok m) := hp
        have h0 : ¬ (d - 1 = 0) := by omega
        have h1 : ¬ (d - 1 = 1) := by omega
        rw [if_neg h0, if_neg h1] at hp1
        exact ih ⟨d - 1, iv, "", "", dt⟩ m ⟨rfl, rfl, by show d - 1 ≤ 0; omega, hdata'⟩ hp1
      | streamEnd =>
        have hp2 : some (Except.ok dt) = some (Except.ok m) := hp
        injection hp2 with h2
        injection h2 with h3
        subst h3
        exact hdata

/-- C3 (amended).  Every attribute list produced by the INI and YAML
loaders is non-empty (for YAML vacuously: no accepted event stream ever
creates an attribute list, since the job-name cursor is never set).
The no-empty-strings half of the claim is false — see the
counterexample: an INI `key =` line with an empty value stores the
empty string. -/
theorem c3_attr_lists_nonempty :
    (∀ (items : List IniItem) (m : JobMap),
      parse_ini items = some (Except.ok m) → mapListsNonEmpty m) ∧
    (∀ (evs : List (Except String YamlEvent)) (m : JobMap),
      parse_yaml evs = some (Except.ok m) → mapListsNonEmpty m) := by
  constructor
  · intro items m hp
    exact parseIni_nonEmpty items "" [] m
      (fun k attrs hga => Option.noConfusion hga) hp
  · intro evs m hp
    have hall : attrsAllEmpty m :=
      parseYaml_allEmpty evs _ m
        ⟨rfl, rfl, by show (-1 : Int) ≤ 0; decide, fun k attrs hga => Option.noConfusion hga⟩ hp
    intro k attrs hga
    rw [hall k attrs hga]
    exact attrListsNonEmpty_nil

/-- Witness for C3 on a concrete accepted INI stream. -/
theorem c3_attr_lists_nonempty_witness :
    parse_ini [IniItem.sec "job-exec \x22j\x22",
      IniItem.prop "command" (some "ls")] =
      some (Except.ok [("job-exec \x22j\x22",
        [("kind", ["job-exec"]), ("name", ["j"]), ("command", ["ls"])])]) ∧
    (["ls"] : List String) ≠ [] :=
  ⟨rfl,
   c3_attr_lists_nonempty.1
     [IniItem.sec "job-exec \x22j\x22", IniItem.prop "command" (some "ls")]
     [("job-exec \x22j\x22",
       [("kind", ["job-exec"]), ("name", ["j"]), ("command", ["ls"])])]
     rfl "job-exec \x22j\x22"
     [("kind", ["job-exec"]), ("name", ["j"]), ("command", ["ls"])]
     rfl "command" ["ls"] rfl⟩

/-- Counterexample for C3 as stated: the INI line `key =` carries the
empty value `Some("")` through `ini_core`, and `parse_ini` stores the
empty string in the attribute list. -/
theorem c3_ini_stores_empty_string :
    parse_ini [IniItem.sec "job-exec \x22j\x22", IniItem.prop "key " (some "")] =
      some (Except.ok [("job-exec \x22j\x22",
        [("kind", ["job-exec"]), ("name", ["j"]), ("key", [""])])]) ∧
    getA [("kind", ["job-exec"]), ("name", ["j"]), ("key", [""])] "key" =
      some [""] := ⟨rfl, rfl⟩

end Cfc
